import Mathlib

/-!
# Session lifecycle of `rmerry/techtest`

A shallow embedding of the packages of the service

* `internal/datastore`   (`inmemory.go`, `interface.go`): the in-memory storage engine,
  its reaper sweep, the housekeeping loop and `Close`,
* `internal/sessionstore` (`store.go`): the lifecycle manager on top of any `datastore.DB`,
* `internal/encryption` (`encrption.go`): `ValidateAlgoKeyPair`, `Encrypt`, `Decrypt`,
* `internal/api` (`models.go`, `helpers.go`): `SessionRequest.Bind`, `algorithmFromText`,

followed by theorems about them.

Modelling conventions.

* Go code that reads the wall clock or a random source receives the value read as an
  explicit argument (`now`, `rnd`, `clock`).
* A Go method with a pointer receiver becomes a function that takes the receiver's state
  and returns the new state next to the Go results.
* A Go call that panics has outcome `none`; a call that returns has outcome `some _`.
* A Go `error` result is an `Option Error`, `none` being the `nil` error; a Go pointer
  result `*T` is an `Option T`, `none` being the `nil` pointer.
* The mutex `mu` serialises the operations; the embedding is of the serialised
  operations, one at a time.
* What the standard library computes from tables or primitives that are not part of the
  repository (the AES and DES block functions, the Unicode case table) is a parameter;
  what it computes by a published rule (base64, CFB mode, `time`) is written out.
-/

namespace Techtest

/-! ## Package `time` (standard library), as far as the repository uses it -/

namespace time

/-- Go `time.Duration`: a signed count of nanoseconds (an `int64` in Go). -/
abbrev Duration := Int

/-- Largest `time.Duration`, `1<<63 - 1` nanoseconds. -/
def maxDuration : Duration := 2 ^ 63 - 1

/-- Smallest `time.Duration`, `-1 << 63` nanoseconds. -/
def minDuration : Duration := -(2 ^ 63)

/-- Whether an integer is a value of Go `time.Duration`, that is, fits an `int64`. -/
def isDuration (d : Int) : Prop := minDuration ≤ d ∧ d ≤ maxDuration

instance (d : Int) : Decidable (isDuration d) := by
  unfold isDuration
  exact inferInstance

/-- Go `time.Second`. -/
def Second : Duration := 1000000000

/-- Go `time.Minute`. -/
def Minute : Duration := 60 * Second

/-- Go `time.Time` as the repository uses it: a wall-clock instant, counted in
nanoseconds on an unbounded line.  `WriteSession` stores `time.Now().UTC()`, which
carries no monotonic reading, so every comparison and difference below is one of
wall-clock instants.  Go keeps the seconds of an instant in an `int64`, a range of
hundreds of billions of years that no reading of `time.Now()` shifted by a `Duration`
(at most some 292 years) leaves; the line is therefore not cut off here. -/
structure Time where
  /-- Nanoseconds since the epoch. -/
  nanos : Int
  deriving DecidableEq, Repr

/-- Go `t.Add(d)`: the instant `t + d` (Go clamps only at the ends of the `int64`
seconds range, see `Time`). -/
def Time.Add (t : Time) (d : Duration) : Time := ⟨t.nanos + d⟩

/-- Go `t.Before(u)`: whether `t` is strictly earlier than `u`. -/
def Time.Before (t u : Time) : Bool := decide (t.nanos < u.nanos)

/-- Go `t.Sub(u)`: the duration `t - u`, replaced by `maxDuration` (`minDuration`) when
the difference exceeds what a `Duration` can hold. -/
def Time.Sub (t u : Time) : Duration :=
  let d := t.nanos - u.nanos
  if d > maxDuration then maxDuration
  else if d < minDuration then minDuration
  else d

end time

/-! ## Package `github.com/google/uuid`, as far as the repository uses it -/

namespace uuid

/-- Go `uuid.UUID`: an array of sixteen bytes. -/
abbrev UUID := List Nat

/-- The sixteen bytes of a version-4 UUID drawn from the random byte stream `rnd`
(`rnd i` is the `i`-th byte read): `uuid.NewRandom` fills the array from the reader and
then stamps the version into byte 6 and the variant into byte 8. -/
def NewRandom (rnd : Nat → Nat) : UUID :=
  (List.range 16).map fun i =>
    let b := rnd i % 256
    if i = 6 then b % 16 + 64        -- (uuid[6] & 0x0f) | 0x40
    else if i = 8 then b % 64 + 128  -- (uuid[8] & 0x3f) | 0x80
    else b

/-- Two lower-case hexadecimal digits of one byte. -/
def hexByte (b : Nat) : List Char := [Nat.digitChar (b / 16 % 16), Nat.digitChar (b % 16)]

/-- Lower-case hexadecimal rendering of a run of bytes. -/
def hex (bs : List Nat) : List Char := bs.flatMap hexByte

/-- Go `UUID.String`: the form `xxxxxxxx-xxxx-xxxx-xxxx-xxxxxxxxxxxx`. -/
def UUID.String (u : UUID) : String :=
  ⟨hex (u.take 4) ++ '-' :: hex ((u.drop 4).take 2) ++ '-' :: hex ((u.drop 6).take 2)
    ++ '-' :: hex ((u.drop 8).take 2) ++ '-' :: hex (u.drop 10)⟩

/-- Go `uuid.NewString`: a fresh random UUID rendered as a string.  (Go panics here
when the random source cannot be read; `rnd` is a source that could.) -/
def NewString (rnd : Nat → Nat) : String := UUID.String (NewRandom rnd)

end uuid

/-! ## Go `error` values -/

/-- A Go `error` value, as the two packages produce and compare them: the three
sentinel errors of `sessionstore`, or any other error value (what a storage backend may
return), identified by its message. -/
inductive Error where
  | ErrDatabaseError
  | ErrSessionExpired
  | ErrSessionNotFound
  | other (msg : String)
  deriving DecidableEq, Repr

/-! ## Package `internal/datastore` -/

namespace datastore

open time

/-- Go `datastore.Session` (`interface.go`): a session object at the data layer. -/
structure Session where
  AlgorithmName : String
  Key : String
  CreatedAt : Time
  deriving DecidableEq, Repr

/-- Go `map[string]*Session` when allocated: a finite map from identifiers to session
pointers (a stored pointer may be `nil`, which is `none`). -/
abbrev SessionMap := AList fun _ : String => Option Session

/-- Go `datastore.DB` (`interface.go`): the interface every storage backend satisfies.
`σ` is the backend's state and `ε` what a call reads from its environment (clock,
randomness, the network).  A call that returns gives the backend's next state and the
two Go results; a call that panics gives `none`. -/
structure DB (σ ε : Type) where
  ReadSession : ε → σ → String → Option (σ × (Option Session × Option Error))
  WriteSession : ε → σ → String → String → Option (σ × (String × Option Error))

/-- Go `datastore.InMemory` (`inmemory.go`).  `data` is `none` for the `nil` map that
`Close` leaves behind.  The mutex and the logger carry no state of interest;
`reaperRunning` records whether the goroutine started by `NewInMemory` is still in its
loop (the state behind `stopChan`). -/
structure InMemory where
  data : Option SessionMap
  maxSessionAge : Duration
  reaperRunning : Bool

/-- Go `NewInMemory`: an empty allocated map, the given `maxSessionAge`, and the
housekeeping goroutine started. -/
def NewInMemory (maxSessionAge : Duration) : InMemory :=
  { data := some ∅, maxSessionAge := maxSessionAge, reaperRunning := true }

/-- The keys of `db.data` (a `nil` map has none). -/
def InMemory.keys (db : InMemory) : List String :=
  match db.data with
  | none => []
  | some m => m.keys

/-- Go map index expression `s, ok := db.data[id]`: `none` when `ok` is false (also on
a `nil` map), `some s` with the stored pointer `s` otherwise. -/
def InMemory.index (db : InMemory) (id : String) : Option (Option Session) :=
  match db.data with
  | none => none
  | some m => m.lookup id

/-- Go `(*InMemory).ReadSession`: the stored pointer when `id` is a key, `nil`
otherwise; the error is always `nil`. -/
def InMemory.ReadSession (db : InMemory) (id : String) :
    InMemory × (Option Session × Option Error) :=
  match db.index id with
  | none => (db, (none, none))
  | some s => (db, (s, none))

/-- Go `(*InMemory).WriteSession`: `rnd` is the random stream `uuid.NewString` reads
and `now` the value of `time.Now().UTC()`.  The assignment `db.data[id] = ...` panics
on a `nil` map. -/
def InMemory.WriteSession (db : InMemory) (rnd : Nat → Nat) (now : Time)
    (algorithm key : String) : Option (InMemory × (String × Option Error)) :=
  let id := uuid.NewString rnd
  match db.data with
  | none => none
  | some m =>
    some ({ db with
              data := some (m.insert id
                (some { AlgorithmName := algorithm, Key := key, CreatedAt := now })) },
          (id, none))

/-- The guard of the loop body of `cleanUpExpiredSessions`,
`v != nil && time.Now().Sub(v.CreatedAt) > db.maxSessionAge`, with `now` the value of
`time.Now()`. -/
def sweepCondition (maxSessionAge : Duration) (now : Time) (v : Option Session) : Bool :=
  match v with
  | none => false
  | some v => decide (now.Sub v.CreatedAt > maxSessionAge)

/-- One iteration of the loop body of `cleanUpExpiredSessions` for the entry `(k, v)`:
`clock k` is the value of `time.Now()` read in that iteration. -/
def cleanUpEntry (maxSessionAge : Duration) (clock : String → Time) (m : SessionMap)
    (e : Sigma fun _ : String => Option Session) : SessionMap :=
  if sweepCondition maxSessionAge (clock e.1) e.2 then m.erase e.1 else m

/-- Go `(*InMemory).cleanUpExpiredSessions`: the reaper sweep.  The loop ranges over
the entries of `db.data` and deletes, from that same map, the key of every entry whose
pointer is not `nil` and whose age at the moment it is visited exceeds
`maxSessionAge`.  Ranging over a `nil` map runs no iteration. -/
def InMemory.cleanUpExpiredSessions (db : InMemory) (clock : String → Time) : InMemory :=
  match db.data with
  | none => db
  | some m =>
    { db with data := some (m.entries.foldl (cleanUpEntry db.maxSessionAge clock) m) }

/-- The in-memory engine as an implementation of the `DB` interface: a write reads the
random stream and the clock from its environment, a read reads nothing. -/
def InMemory.asDB : DB InMemory ((Nat → Nat) × Time) where
  ReadSession := fun _ db id => some (db.ReadSession id)
  WriteSession := fun env db algorithm key => db.WriteSession env.1 env.2 algorithm key

/-- A storage backend every call of which fails (a network store that is unreachable,
say): the write returns an empty identifier and an error, the read a nil session and an
error.  It has no state and reads nothing from its environment. -/
def unreachableDB : DB Unit Unit where
  ReadSession := fun _ _ _ => some ((), (none, some (Error.other "connection refused")))
  WriteSession := fun _ _ _ _ => some ((), ("", some (Error.other "connection refused")))


/-- What the `select` in the loop of the housekeeping goroutine can receive: the value
`Close` sends on `stopChan`, or a tick of the poll timer (`clock` gives the readings of
`time.Now()` during the sweep that follows). -/
inductive Signal where
  | stop
  | tick (clock : String → Time)

/-- Go `(*InMemory).sessionCleanUpFunc`: one round of its loop, for a goroutine that is
in the loop.  On the stop value it leaves the loop; on a tick it runs
`cleanUpExpiredSessions`. -/
def InMemory.sessionCleanUpFunc (db : InMemory) : Signal → InMemory
  | .stop => { db with reaperRunning := false }
  | .tick clock => db.cleanUpExpiredSessions clock

/-- Go `(*InMemory).Close`.  The send on the unbuffered `stopChan` completes when the
housekeeping goroutine receives the value in its `select`, upon which the goroutine
leaves its loop; then `db.data = nil`.  When no goroutine is in the loop any more the
send never completes and `Close` does not return (`none`). -/
def InMemory.Close (db : InMemory) : Option InMemory :=
  if db.reaperRunning then some { db.sessionCleanUpFunc Signal.stop with data := none }
  else none

end datastore

/-! ## Package `internal/sessionstore` -/

namespace sessionstore

open time datastore

/-- Go `sessionstore.Session` (`store.go`): the view of a session handed to callers. -/
structure Session where
  AlgorithmName : String
  Key : String
  ExpiresAt : Time
  deriving DecidableEq, Repr

/-- Go `sessionstore.Store`: a storage backend and the maximum session age. -/
structure Store (σ ε : Type) where
  db : DB σ ε
  maxSessionAge : Duration

/-- Go `sessionstore.New`. -/
def New {σ ε : Type} (db : DB σ ε) (maxSessionAge : Duration) : Store σ ε :=
  { db := db, maxSessionAge := maxSessionAge }

/-- Go `(*Store).NewSession`: `env` is what the backend's write reads from its
environment and `st` the backend's state. -/
def Store.NewSession {σ ε : Type} (s : Store σ ε) (env : ε) (st : σ)
    (algorithm key : String) : Option (σ × (String × Option Error)) :=
  match s.db.WriteSession env st algorithm key with
  | none => none
  | some (st', (id, err)) =>
    match err with
    | some _ => some (st', ("", some Error.ErrDatabaseError))
    | none => some (st', (id, none))

/-- Go `(*Store).GetSession`: `now` is the value of `time.Now()` read after the
backend's read has returned. -/
def Store.GetSession {σ ε : Type} (s : Store σ ε) (env : ε) (now : Time) (st : σ)
    (id : String) : Option (σ × (Option Session × Option Error)) :=
  match s.db.ReadSession env st id with
  | none => none
  | some (st', (session, err)) =>
    match err with
    | some _ => some (st', (none, some Error.ErrDatabaseError))
    | none =>
      match session with
      | none => some (st', (none, some Error.ErrSessionNotFound))
      | some session =>
        let expiresAt := session.CreatedAt.Add s.maxSessionAge
        if expiresAt.Before now then some (st', (none, some Error.ErrSessionExpired))
        else some (st', (some { AlgorithmName := session.AlgorithmName,
                                Key := session.Key,
                                ExpiresAt := expiresAt }, none))

end sessionstore

/-! ## The running service as a transition system -/

namespace system

open time datastore sessionstore

/-- What happens to a running service between two observations: the clock advances by
`d` nanoseconds; a caller creates a session (`rnd` is the random stream its identifier
is drawn from); a caller reads a session; or the reaper runs one sweep, which takes
`dur` nanoseconds and visits the entry under key `k` after `min (delay k) dur` of
them. -/
inductive Event where
  | advance (d : Nat)
  | createSession (rnd : Nat → Nat) (algorithm key : String)
  | getSession (id : String)
  | sweep (dur : Nat) (delay : String → Nat)

/-- The engine and the wall clock. -/
structure State where
  engine : InMemory
  now : Time

/-- One event, for a `Store` over the in-memory engine with the given `maxSessionAge`.
The outcome is `none` when the call panics. -/
def step (maxSessionAge : Duration) (s : State) : Event → Option State
  | .advance d => some { s with now := s.now.Add d }
  | .createSession rnd algorithm key =>
    match (New InMemory.asDB maxSessionAge).NewSession (rnd, s.now) s.engine algorithm key with
    | none => none
    | some (db, _) => some { s with engine := db }
  | .getSession id =>
    match (New InMemory.asDB maxSessionAge).GetSession (fun _ => 0, s.now) s.now s.engine id with
    | none => none
    | some (db, _) => some { s with engine := db }
  | .sweep dur delay =>
    some { engine := s.engine.cleanUpExpiredSessions fun k => s.now.Add (min (delay k) dur),
           now := s.now.Add dur }

/-- A sequence of events, in order. -/
def run (maxSessionAge : Duration) : State → List Event → Option State
  | s, [] => some s
  | s, e :: es =>
    match step maxSessionAge s e with
    | none => none
    | some s' => run maxSessionAge s' es


/-- The UUIDs drawn by the `createSession` calls of a sequence of events, in order. -/
def drawn : List Event → List uuid.UUID
  | [] => []
  | .createSession rnd _ _ :: es => uuid.NewRandom rnd :: drawn es
  | .advance _ :: es => drawn es
  | .getSession _ :: es => drawn es
  | .sweep _ _ :: es => drawn es

end system

/-! ## The storage engine as a transition system -/

namespace engine

open time datastore

/-- What can happen to an engine: a write, a read, a tick of the poll timer, a call of
`Close`. -/
inductive Event where
  | write (rnd : Nat → Nat) (now : Time) (algorithm key : String)
  | read (id : String)
  | tick (clock : String → Time)
  | close

/-- One event: the next state, and whether the event made the housekeeping goroutine run
a sweep.  A tick reaches the goroutine only while it is in its loop; afterwards nothing
receives it.  `none`: the call panics or does not return. -/
def step (db : InMemory) : Event → Option (InMemory × Bool)
  | .write rnd now algorithm key =>
    (db.WriteSession rnd now algorithm key).map fun r => (r.1, false)
  | .read id => some ((db.ReadSession id).1, false)
  | .tick clock =>
    if db.reaperRunning then some (db.sessionCleanUpFunc (Signal.tick clock), true)
    else some (db, false)
  | .close => db.Close.map fun d => (d, false)

/-- A sequence of events, in order: the final state and the number of sweeps run. -/
def run : InMemory → List Event → Option (InMemory × Nat)
  | db, [] => some (db, 0)
  | db, e :: es =>
    match step db e with
    | none => none
    | some (db', swept) =>
      (run db' es).map fun r => (r.1, r.2 + (if swept then 1 else 0))

end engine

/-! ## Bytes

Go's `[]byte`, and Go's `string` where the repository treats it as data (a plaintext, a
ciphertext: any sequence of bytes), are lists of bytes. -/

/-- A Go `byte`. -/
abbrev Byte := Fin 256

/-- Go `a ^ b` on bytes. -/
def xorByte (a b : Byte) : Byte :=
  ⟨a.val ^^^ b.val, Nat.xor_lt_two_pow (n := 8) a.isLt b.isLt⟩

/-- Go `subtle.XORBytes(dst, x, y)`: the bytes written, `x[i] ^ y[i]` for every index
below both lengths. -/
def xorBytes (x y : List Byte) : List Byte := List.zipWith xorByte x y

/-- Go `[]byte(s)` for a string `s` that is text: its UTF-8 encoding. -/
def bytesOfString (s : String) : List Byte :=
  s.data.flatMap fun c => (String.utf8EncodeChar c).map fun b => b.val

/-- Go `io.ReadFull(rand.Reader, buf)` for a buffer of `n` bytes.  `entropy` is `none`
for a reader that fails, and otherwise the stream the reader delivers; reading no bytes
never fails. -/
def readFull (entropy : Option (Nat → Byte)) (n : Nat) : Option (List Byte) :=
  if n = 0 then some []
  else entropy.map fun f => (List.range n).map f

/-! ## Package `encoding/base64` (standard library): `StdEncoding` -/

namespace base64

/-- The alphabet of `StdEncoding`. -/
def encodeStd : List Byte :=
  "ABCDEFGHIJKLMNOPQRSTUVWXYZabcdefghijklmnopqrstuvwxyz0123456789+/".data.map
    fun c => Fin.ofNat c.toNat

/-- The padding character `=`. -/
def padChar : Byte := 61

/-- The character for a six-bit value (`enc.encode[v]`). -/
def encodeChar (v : Nat) : Byte := encodeStd.getD v 0

/-- The six-bit value of a character of the alphabet (`enc.decodeMap[c]`, `none` for
the entries `0xff`). -/
def decodeChar (c : Byte) : Option Nat :=
  if encodeStd.indexOf c < 64 then some (encodeStd.indexOf c) else none

/-- Go `StdEncoding.EncodeToString`: three bytes give four characters; a last group of
one or two bytes gives two or three characters and padding up to four. -/
def EncodeToString : List Byte → List Byte
  | a :: b :: c :: rest =>
    let val := a.val * 65536 + b.val * 256 + c.val
    encodeChar (val / 262144 % 64) :: encodeChar (val / 4096 % 64)
      :: encodeChar (val / 64 % 64) :: encodeChar (val % 64) :: EncodeToString rest
  | [a, b] =>
    let val := a.val * 65536 + b.val * 256
    [encodeChar (val / 262144 % 64), encodeChar (val / 4096 % 64),
      encodeChar (val / 64 % 64), padChar]
  | [a] =>
    let val := a.val * 65536
    [encodeChar (val / 262144 % 64), encodeChar (val / 4096 % 64), padChar, padChar]
  | [] => []

/-- The decoder on an input without line breaks: groups of four characters of the
alphabet, the last of which may end in one or two padding characters, after which
nothing may follow.  `none` is `CorruptInputError`. -/
def decodeQuanta : List Byte → Option (List Byte)
  | [] => some []
  | a :: b :: c :: d :: rest =>
    match decodeChar a, decodeChar b with
    | some x, some y =>
      if c = padChar then
        if d = padChar ∧ rest = [] then
          some [Fin.ofNat ((x * 262144 + y * 4096) / 65536)]
        else none
      else
        match decodeChar c with
        | none => none
        | some z =>
          if d = padChar then
            if rest = [] then
              some [Fin.ofNat ((x * 262144 + y * 4096 + z * 64) / 65536),
                    Fin.ofNat ((x * 262144 + y * 4096 + z * 64) / 256)]
            else none
          else
            match decodeChar d with
            | none => none
            | some w =>
              (decodeQuanta rest).map fun tail =>
                Fin.ofNat ((x * 262144 + y * 4096 + z * 64 + w) / 65536)
                  :: Fin.ofNat ((x * 262144 + y * 4096 + z * 64 + w) / 256)
                  :: Fin.ofNat (x * 262144 + y * 4096 + z * 64 + w) :: tail
    | _, _ => none
  | _ => none

/-- Go `StdEncoding.DecodeString`: carriage returns and line feeds are ignored wherever
they stand; `none` is `CorruptInputError`. -/
def DecodeString (s : List Byte) : Option (List Byte) :=
  decodeQuanta (s.filter fun c => decide (c ≠ 10 ∧ c ≠ 13))

end base64

/-! ## Packages `crypto/cipher`, `crypto/aes`, `crypto/des` (standard library) -/

namespace cipher

/-- Go `cipher.Block`: a block cipher under a fixed key.  `Encrypt` writes one block of
`BlockSize` bytes. -/
structure Block where
  BlockSize : Nat
  Encrypt : List Byte → List Byte
  BlockSize_pos : 0 < BlockSize
  Encrypt_length : ∀ src, (Encrypt src).length = BlockSize

/-- The loop of `XORKeyStream` on a CFB encrypter: `next` is the block to run through
the cipher for the coming key stream (the IV, then the ciphertext block just produced);
every round handles up to `BlockSize` bytes of `src`.  `fuel` bounds the rounds. -/
def cfbEncryptLoop (b : Block) : Nat → List Byte → List Byte → List Byte
  | 0, _, _ => []
  | fuel + 1, next, src =>
    if src = [] then []
    else
      let dst := xorBytes (src.take b.BlockSize) (b.Encrypt next)
      dst ++ cfbEncryptLoop b fuel dst (src.drop b.BlockSize)

/-- The loop of `XORKeyStream` on a CFB decrypter: `next` is the IV, then the
ciphertext block just read. -/
def cfbDecryptLoop (b : Block) : Nat → List Byte → List Byte → List Byte
  | 0, _, _ => []
  | fuel + 1, next, src =>
    if src = [] then []
    else
      xorBytes (src.take b.BlockSize) (b.Encrypt next)
        ++ cfbDecryptLoop b fuel (src.take b.BlockSize) (src.drop b.BlockSize)

/-- Go `cipher.NewCFBEncrypter(block, iv)` followed by one `XORKeyStream(dst, src)`
into a `dst` as long as `src`: the bytes written.  `NewCFBEncrypter` panics (`none`)
when the IV is not one block long. -/
def CFBEncrypt (b : Block) (iv src : List Byte) : Option (List Byte) :=
  if iv.length = b.BlockSize then some (cfbEncryptLoop b src.length iv src) else none

/-- Go `cipher.NewCFBDecrypter(block, iv)` followed by one `XORKeyStream(dst, src)`. -/
def CFBDecrypt (b : Block) (iv src : List Byte) : Option (List Byte) :=
  if iv.length = b.BlockSize then some (cfbDecryptLoop b src.length iv src) else none

end cipher

/-- The block ciphers behind `crypto/aes` and `crypto/des`, taken as given: the
encryption of one block under a key, which writes 16 bytes for AES and 8 for DES. -/
structure BlockCiphers where
  aesEncrypt : List Byte → List Byte → List Byte
  desEncrypt : List Byte → List Byte → List Byte
  aesEncrypt_length : ∀ key src, (aesEncrypt key src).length = 16
  desEncrypt_length : ∀ key src, (desEncrypt key src).length = 8

namespace aes

/-- Go `aes.BlockSize`. -/
def BlockSize : Nat := 16

/-- Go `aes.NewCipher`: a key of 16, 24 or 32 bytes, or `KeySizeError`. -/
def NewCipher (P : BlockCiphers) (key : List Byte) : Except Nat cipher.Block :=
  if key.length = 16 ∨ key.length = 24 ∨ key.length = 32 then
    .ok { BlockSize := BlockSize, Encrypt := P.aesEncrypt key,
          BlockSize_pos := by decide, Encrypt_length := P.aesEncrypt_length key }
  else .error key.length

end aes

namespace des

/-- Go `des.BlockSize`. -/
def BlockSize : Nat := 8

/-- Go `des.NewCipher`: a key of 8 bytes, or `KeySizeError`. -/
def NewCipher (P : BlockCiphers) (key : List Byte) : Except Nat cipher.Block :=
  if key.length = 8 then
    .ok { BlockSize := BlockSize, Encrypt := P.desEncrypt key,
          BlockSize_pos := by decide, Encrypt_length := P.desEncrypt_length key }
  else .error key.length

end des

/-! ## Package `internal/encryption` -/

namespace encryption

/-- The sentinel errors of the package; an error joined with a cause (`errors.Join`) is
identified by its sentinel. -/
inductive Error where
  | ErrCipherCreation
  | ErrBase64DecodeError
  | ErrInvalidCipherTextBlockSize
  | ErrGeneratingIV
  deriving DecidableEq, Repr

/-- Go `type Algorithm string`. -/
abbrev Algorithm := String

def AES128 : Algorithm := "aes128"
def AES192 : Algorithm := "aes192"
def AES256 : Algorithm := "aes256"
def DES : Algorithm := "des"

def supportedSymmetricAlgorithms : List String := ["aes128", "aes192", "aes256", "des"]

/-- Go `Algorithms`. -/
def Algorithms : List String := supportedSymmetricAlgorithms

/-- Go `ValidateAlgoKeyPair`. -/
def ValidateAlgoKeyPair (algo : Algorithm) (key : List Byte) : Bool :=
  if algo = AES128 then key.length == 16
  else if algo = AES192 then key.length == 24
  else if algo = AES256 then key.length == 32
  else if algo = DES then key.length == 8
  else false

/-- The `switch algo` that opens `Encrypt` and `Decrypt`: the block size and the result
of the cipher constructor, or `none` when no case matches (`blockSize` stays 0, `block`
and `err` stay nil). -/
def selectCipher (P : BlockCiphers) (algo : Algorithm) (key : List Byte) :
    Option (Nat × Except Nat cipher.Block) :=
  if algo = AES128 ∨ algo = AES192 ∨ algo = AES256 then
    some (aes.BlockSize, aes.NewCipher P key)
  else if algo = DES then some (des.BlockSize, des.NewCipher P key)
  else none

/-- Go `Encrypt`.  `entropy` is what `rand.Reader` delivers.  With an algorithm outside
the `switch`, `block` is nil and `cipher.NewCFBEncrypter` panics (`none`). -/
def Encrypt (P : BlockCiphers) (entropy : Option (Nat → Byte)) (algo : Algorithm)
    (key : List Byte) (plaintext : List Byte) : Option (Except Error (List Byte)) :=
  match selectCipher P algo key with
  | none => none
  | some (_, .error _) => some (.error Error.ErrCipherCreation)
  | some (blockSize, .ok block) =>
    match readFull entropy blockSize with
    | none => some (.error Error.ErrGeneratingIV)
    | some iv =>
      match cipher.CFBEncrypt block iv plaintext with
      | none => none
      | some stream => some (.ok (base64.EncodeToString (iv ++ stream)))

/-- Go `Decrypt`.  With an algorithm outside the `switch`, a ciphertext that is not
base64 is still reported as such; otherwise `block` is nil and `cipher.NewCFBDecrypter`
panics (`none`). -/
def Decrypt (P : BlockCiphers) (algo : Algorithm) (key : List Byte)
    (cipherText : List Byte) : Option (Except Error (List Byte)) :=
  match selectCipher P algo key with
  | some (_, .error _) => some (.error Error.ErrCipherCreation)
  | none =>
    match base64.DecodeString cipherText with
    | none => some (.error Error.ErrBase64DecodeError)
    | some _ => none
  | some (blockSize, .ok block) =>
    match base64.DecodeString cipherText with
    | none => some (.error Error.ErrBase64DecodeError)
    | some cipherTextBytes =>
      if cipherTextBytes.length < blockSize then
        some (.error Error.ErrInvalidCipherTextBlockSize)
      else
        match cipher.CFBDecrypt block (cipherTextBytes.take blockSize)
            (cipherTextBytes.drop blockSize) with
        | none => none
        | some plain => some (.ok plain)

/-- Go `isBase64` (`encryption_test.go`): whether `StdEncoding.DecodeString` accepts the
string. -/
def isBase64 (s : List Byte) : Bool := (base64.DecodeString s).isSome

/-- A stand-in for the standard library's block ciphers, for evaluating the package on
concrete inputs: the "encryption" of a block is the key, cut or padded with zeros to the
block size. -/
def toyCiphers : BlockCiphers where
  aesEncrypt := fun key _ => (key ++ List.replicate 16 0).take 16
  desEncrypt := fun key _ => (key ++ List.replicate 8 0).take 8
  aesEncrypt_length := fun key _ => by simp
  desEncrypt_length := fun key _ => by simp

end encryption

/-! ## Packages `unicode` and `strings` (standard library), as far as `Bind` uses them

The strings `Bind` receives are text (valid UTF-8, decoded from JSON): sequences of
characters. -/

namespace unicode

/-- Go `unicode.IsSpace`: the characters with the Unicode property White_Space. -/
def IsSpace (c : Char) : Bool :=
  let n := c.toNat
  (9 ≤ n && n ≤ 13) || n == 32 || n == 133 || n == 160 || n == 5760
    || (8192 ≤ n && n ≤ 8202) || n == 8232 || n == 8233 || n == 8239 || n == 8287
    || n == 12288

/-- Go `unicode.ToLower`, the case mapping of the standard library's tables, taken as
given; a white-space character has no case and maps to itself. -/
structure CaseTable where
  ToLower : Char → Char
  ToLower_space : ∀ c, IsSpace c = true → ToLower c = c

/-- A stand-in for the standard library's case table, for evaluating `Bind` on concrete
inputs: the letters `A` to `Z` map to `a` to `z`, every other character to itself. -/
def asciiCaseTable : CaseTable where
  ToLower := Char.toLower
  ToLower_space := by
    intro c h
    have hn : ¬ (c.toNat ≥ 65 ∧ c.toNat ≤ 90) := by
      intro hup
      simp only [IsSpace, Bool.or_eq_true, Bool.and_eq_true, decide_eq_true_eq,
        beq_iff_eq] at h
      omega
    simp only [Char.toLower, if_neg hn]

end unicode

namespace strings

/-- Go `strings.TrimSpace`: the string without its leading and trailing white space. -/
def TrimSpace (s : String) : String :=
  ⟨(s.data.dropWhile unicode.IsSpace).rdropWhile unicode.IsSpace⟩

/-- Go `strings.ToLower`: every character mapped to lower case. -/
def ToLower (U : unicode.CaseTable) (s : String) : String := ⟨s.data.map U.ToLower⟩

/-- Go `strings.ReplaceAll(s, old, "")` for a one-character `old`: every occurrence
removed. -/
def removeAll (s : String) (old : Char) : String := ⟨s.data.filter fun c => c != old⟩

end strings

/-! ## Package `internal/api` -/

namespace api

/-- Go `algorithmFromText` (`helpers.go`). -/
def algorithmFromText (input : String) : encryption.Algorithm :=
  if input = "aes128" then encryption.AES128
  else if input = "aes192" then encryption.AES192
  else if input = "aes256" then encryption.AES256
  else encryption.DES

/-- The name `Bind` stores,
`strings.ReplaceAll(strings.ToLower(sr.AlgorithmName), "-", "")`. -/
def normalisedName (U : unicode.CaseTable) (input : String) : String :=
  strings.removeAll (strings.ToLower U input) '-'

/-- Go `api.Session` (`models.go`). -/
structure Session where
  AlgorithmName : String
  Key : String
  deriving DecidableEq, Repr

/-- Go `api.SessionRequest`: an embedded `*Session`, nil (`none`) when the body gave
none. -/
abbrev SessionRequest := Option Session

/-- Go `(*SessionRequest).Bind`: the request as `Bind` leaves it, and the error.  With a
nil `Session` the first field access panics (`none`).  The test on `sr.Key` has an empty
body and does nothing. -/
def SessionRequest.Bind (U : unicode.CaseTable) (sr : SessionRequest) :
    Option (SessionRequest × Option String) :=
  match sr with
  | none => none
  | some s =>
    if strings.TrimSpace s.AlgorithmName = "" then
      some (some s, some "algorithm_name is required.")
    else
      let name := normalisedName U s.AlgorithmName
      let supported := encryption.Algorithms.foldl
        (fun supported algo => if algo = name then true else supported) false
      if !supported then
        some (some { s with AlgorithmName := name }, some "unsupported algorithm")
      else if !encryption.ValidateAlgoKeyPair (algorithmFromText name) (bytesOfString s.Key)
      then some (some { s with AlgorithmName := name }, some "invalid key size")
      else some (some { s with AlgorithmName := name }, none)

end api

/-! ## Helper lemmas -/

section Helpers

open time datastore sessionstore

theorem index_eq_none_iff (db : InMemory) (id : String) :
    db.index id = none ↔ id ∉ db.keys := by
  unfold InMemory.index InMemory.keys
  cases db.data with
  | none => simp
  | some m => simp [AList.lookup_eq_none, AList.mem_keys]

theorem readSession_fst (db : InMemory) (id : String) :
    (db.ReadSession id).1 = db := by
  unfold InMemory.ReadSession
  cases db.index id <;> rfl

theorem readSession_of_index {db : InMemory} {id : String} {v : Option datastore.Session}
    (h : db.index id = some v) : db.ReadSession id = (db, (v, none)) := by
  simp [InMemory.ReadSession, h]

theorem readSession_of_index_none {db : InMemory} {id : String}
    (h : db.index id = none) : db.ReadSession id = (db, (none, none)) := by
  simp [InMemory.ReadSession, h]

/-- What `GetSession` over the in-memory engine returns for a stored record. -/
theorem getSession_of_index {db : InMemory} {id : String} {v : datastore.Session}
    (h : db.index id = some (some v)) (age : Duration) (env : (Nat → Nat) × Time)
    (now : Time) :
    (New InMemory.asDB age).GetSession env now db id =
      if (v.CreatedAt.Add age).Before now then
        some (db, (none, some Error.ErrSessionExpired))
      else
        some (db, (some { AlgorithmName := v.AlgorithmName, Key := v.Key,
                          ExpiresAt := v.CreatedAt.Add age }, none)) := by
  simp [Store.GetSession, New, InMemory.asDB, readSession_of_index h]

/-- What `GetSession` over the in-memory engine returns when the read finds nothing. -/
theorem getSession_of_read_nil {db : InMemory} {id : String}
    (h : db.index id = none ∨ db.index id = some none) (age : Duration)
    (env : (Nat → Nat) × Time) (now : Time) :
    (New InMemory.asDB age).GetSession env now db id =
      some (db, (none, some Error.ErrSessionNotFound)) := by
  rcases h with h | h
  · simp [Store.GetSession, New, InMemory.asDB, readSession_of_index_none h]
  · simp [Store.GetSession, New, InMemory.asDB, readSession_of_index h]

/-- The state a successful write leaves, and its results. -/
theorem writeSession_eq {db : InMemory} {m : SessionMap} (h : db.data = some m)
    (rnd : Nat → Nat) (now : Time) (algorithm key : String) :
    db.WriteSession rnd now algorithm key =
      some ({ db with
                data := some (m.insert (uuid.NewString rnd)
                  (some { AlgorithmName := algorithm, Key := key, CreatedAt := now })) },
            (uuid.NewString rnd, none)) := by
  simp [InMemory.WriteSession, h]

theorem index_of_data {db : InMemory} {m : SessionMap} (h : db.data = some m)
    (id : String) : db.index id = m.lookup id := by
  simp [InMemory.index, h]

/-- One loop iteration of the sweep, seen through a lookup. -/
theorem cleanUpEntry_lookup (age : Duration) (clock : String → Time) (m : SessionMap)
    (e : Sigma fun _ : String => Option datastore.Session) (k : String) :
    (cleanUpEntry age clock m e).lookup k =
      if e.1 = k ∧ sweepCondition age (clock e.1) e.2 = true then none else m.lookup k := by
  unfold cleanUpEntry
  by_cases hc : sweepCondition age (clock e.1) e.2 = true
  · by_cases hk : e.1 = k
    · subst hk
      simp [hc]
    · have hk' : k ≠ e.1 := fun h => hk h.symm
      simp [hc, hk, AList.lookup_erase_ne hk']
  · simp [hc]

/-- The whole loop of the sweep, seen through a lookup: a key is gone when some visited
entry under that key met the guard, and is as in the starting map otherwise. -/
theorem foldl_cleanUpEntry_lookup (age : Duration) (clock : String → Time) (k : String)
    (l : List (Sigma fun _ : String => Option datastore.Session)) (acc : SessionMap) :
    (l.foldl (cleanUpEntry age clock) acc).lookup k =
      if ∃ e ∈ l, e.1 = k ∧ sweepCondition age (clock e.1) e.2 = true then none
      else acc.lookup k := by
  induction l generalizing acc with
  | nil => simp
  | cons e l ih =>
    rw [List.foldl_cons, ih, cleanUpEntry_lookup]
    by_cases h1 : ∃ e' ∈ l, e'.1 = k ∧ sweepCondition age (clock e'.1) e'.2 = true
    · have h2 : ∃ e' ∈ e :: l, e'.1 = k ∧ sweepCondition age (clock e'.1) e'.2 = true := by
        obtain ⟨e', he', hp⟩ := h1
        exact ⟨e', List.mem_cons_of_mem _ he', hp⟩
      rw [if_pos h1, if_pos h2]
    · rw [if_neg h1]
      by_cases h3 : e.1 = k ∧ sweepCondition age (clock e.1) e.2 = true
      · have h2 : ∃ e' ∈ e :: l, e'.1 = k ∧ sweepCondition age (clock e'.1) e'.2 = true :=
          ⟨e, List.mem_cons_self _ _, h3⟩
        rw [if_pos h3, if_pos h2]
      · have h2 : ¬ ∃ e' ∈ e :: l, e'.1 = k ∧ sweepCondition age (clock e'.1) e'.2 = true := by
          rintro ⟨e', he', hp⟩
          rcases List.mem_cons.mp he' with rfl | he'
          · exact h3 hp
          · exact h1 ⟨e', he', hp⟩
        rw [if_neg h3, if_neg h2]

/-- The sweep, seen through the map index expression: a key whose pointer is not nil
and whose age at the moment it is visited exceeds `maxSessionAge` is gone; every other
key holds what it held. -/
theorem cleanUpExpiredSessions_index (db : InMemory) (clock : String → Time) (id : String) :
    (db.cleanUpExpiredSessions clock).index id =
      match db.index id with
      | none => none
      | some v => if sweepCondition db.maxSessionAge (clock id) v = true then none else some v := by
  unfold InMemory.cleanUpExpiredSessions InMemory.index
  cases hd : db.data with
  | none => simp [hd]
  | some m =>
    simp only [foldl_cleanUpEntry_lookup]
    cases hl : m.lookup id with
    | none =>
      have : ¬ ∃ e ∈ m.entries, e.1 = id ∧
          sweepCondition db.maxSessionAge (clock e.1) e.2 = true := by
        rintro ⟨⟨k, v⟩, he, hk, _⟩
        simp only at hk
        subst hk
        have : v ∈ m.lookup k := AList.mem_lookup_iff.mpr he
        rw [hl] at this
        exact Option.not_mem_none _ this
      rw [if_neg this]
    | some v =>
      have hmem : (⟨id, v⟩ : Sigma fun _ : String => Option datastore.Session) ∈ m.entries :=
        AList.mem_lookup_iff.mp (by rw [hl]; exact Option.mem_some_iff.mpr rfl)
      by_cases hc : sweepCondition db.maxSessionAge (clock id) v = true
      · have : ∃ e ∈ m.entries, e.1 = id ∧
            sweepCondition db.maxSessionAge (clock e.1) e.2 = true := ⟨⟨id, v⟩, hmem, rfl, hc⟩
        simp only [if_pos this, if_pos hc]
      · have : ¬ ∃ e ∈ m.entries, e.1 = id ∧
            sweepCondition db.maxSessionAge (clock e.1) e.2 = true := by
          rintro ⟨⟨k, w⟩, he, hk, hw⟩
          simp only at hk
          subst hk
          have hw' : w ∈ m.lookup k := AList.mem_lookup_iff.mpr he
          rw [hl] at hw'
          have : v = w := Option.mem_some_iff.mp hw'
          subst this
          exact hc hw
        simp only [if_neg this, if_neg hc]

theorem cleanUpExpiredSessions_maxSessionAge (db : InMemory) (clock : String → Time) :
    (db.cleanUpExpiredSessions clock).maxSessionAge = db.maxSessionAge := by
  unfold InMemory.cleanUpExpiredSessions
  cases db.data <;> rfl

/-- Saturation to the `int64` range does not turn a difference at or below an `int64`
bound into one above it. -/
theorem add_lt_of_lt_saturate (a c n : Int) (h1 : -(2 ^ 63) ≤ a)
    (h : a < (if n - c > 2 ^ 63 - 1 then 2 ^ 63 - 1
              else if n - c < -(2 ^ 63) then -(2 ^ 63) else n - c)) :
    c + a < n := by
  split_ifs at h <;> omega

/-- An age that the sweep counts as exceeding `maxSessionAge` puts the expiry instant
strictly before the instant of the reading. -/
theorem before_of_sub_gt {age : Duration} (hage : isDuration age) {now created : Time}
    (h : now.Sub created > age) : (created.Add age).Before now = true := by
  simp only [Time.Before, Time.Add, decide_eq_true_eq]
  exact add_lt_of_lt_saturate age created.nanos now.nanos hage.1 h

/-- The state `GetSession` returns over the in-memory engine is the state it read. -/
theorem getSession_state (age : Duration) (env : (Nat → Nat) × Time) (now : Time)
    (db : InMemory) (id : String) :
    ∃ r, (New InMemory.asDB age).GetSession env now db id = some (db, r) := by
  cases h : db.index id with
  | none => exact ⟨_, getSession_of_read_nil (Or.inl h) age env now⟩
  | some v =>
    cases v with
    | none => exact ⟨_, getSession_of_read_nil (Or.inr h) age env now⟩
    | some v =>
      rw [getSession_of_index h]
      by_cases hb : (v.CreatedAt.Add age).Before now = true
      · exact ⟨_, by rw [if_pos hb]⟩
      · exact ⟨_, by rw [if_neg hb]⟩

/-- The map index expression after a successful write. -/
theorem index_after_write (db : InMemory) (m : SessionMap) (newId : String)
    (v : Option datastore.Session) (id : String) :
    InMemory.index { db with data := some (m.insert newId v) } id =
      if id = newId then some v else m.lookup id := by
  by_cases h : id = newId
  · subst h
    simp [InMemory.index]
  · simp [InMemory.index, h, AList.lookup_insert_ne h]

/-- `NewSession` over the in-memory engine with an allocated map. -/
theorem newSession_eq {db : InMemory} {m : SessionMap} (h : db.data = some m)
    (age : Duration) (rnd : Nat → Nat) (now : Time) (algorithm key : String) :
    (New InMemory.asDB age).NewSession (rnd, now) db algorithm key =
      some ({ db with
                data := some (m.insert (uuid.NewString rnd)
                  (some { AlgorithmName := algorithm, Key := key, CreatedAt := now })) },
            (uuid.NewString rnd, none)) := by
  simp only [Store.NewSession, New, InMemory.asDB, writeSession_eq h]

/-- What the trace argument carries from state to state: the map is allocated, and the
identifier `sid` is either not a key or still holds the record `v`. -/
def holdsOrGone (sid : String) (v : datastore.Session) (s : system.State) : Prop :=
  s.engine.data ≠ none ∧ (s.engine.index sid = none ∨ s.engine.index sid = some (some v))

theorem step_holdsOrGone (age : Duration) (sid : String) (v : datastore.Session)
    (s : system.State) (e : system.Event) (hs : holdsOrGone sid v s)
    (hfresh : ∀ rnd a k, e = system.Event.createSession rnd a k → uuid.NewString rnd ≠ sid) :
    ∃ s', system.step age s e = some s' ∧ holdsOrGone sid v s'
      ∧ s.now.nanos ≤ s'.now.nanos := by
  obtain ⟨hlive, hidx⟩ := hs
  obtain ⟨m, hm⟩ := Option.ne_none_iff_exists'.mp hlive
  cases e with
  | advance d =>
    refine ⟨_, rfl, ⟨hlive, hidx⟩, ?_⟩
    simp [Time.Add]
  | createSession rnd a k =>
    have hne : sid ≠ uuid.NewString rnd := fun h => hfresh rnd a k rfl h.symm
    refine ⟨{ s with engine := { s.engine with
        data := some (m.insert (uuid.NewString rnd)
          (some { AlgorithmName := a, Key := k, CreatedAt := s.now })) } },
      by simp only [system.step, newSession_eq hm], ⟨by simp, ?_⟩, le_refl _⟩
    simp only [index_after_write, if_neg hne]
    rw [← index_of_data hm]
    exact hidx
  | getSession id =>
    obtain ⟨r, hr⟩ := getSession_state age (fun _ => 0, s.now) s.now s.engine id
    exact ⟨s, by simp only [system.step, hr], ⟨hlive, hidx⟩, le_refl _⟩
  | sweep dur delay =>
    refine ⟨_, rfl, ⟨?_, ?_⟩, ?_⟩
    · simp [InMemory.cleanUpExpiredSessions, hm]
    · simp only [cleanUpExpiredSessions_index]
      rcases hidx with h | h
      · left; rw [h]
      · rw [h]
        by_cases hc : sweepCondition s.engine.maxSessionAge
            (s.now.Add (min (delay sid) dur)) (some v) = true
        · left; simp only [if_pos hc]
        · right; simp only [if_neg hc]
    · simp [Time.Add]

theorem run_holdsOrGone (age : Duration) (sid : String) (v : datastore.Session)
    (evs : List system.Event) :
    ∀ s : system.State, holdsOrGone sid v s →
      (∀ rnd a k, system.Event.createSession rnd a k ∈ evs → uuid.NewString rnd ≠ sid) →
      ∃ s', system.run age s evs = some s' ∧ holdsOrGone sid v s'
        ∧ s.now.nanos ≤ s'.now.nanos := by
  induction evs with
  | nil => intro s hs _; exact ⟨s, rfl, hs, le_refl _⟩
  | cons e es ih =>
    intro s hs hfresh
    obtain ⟨s1, h1, hs1, hle1⟩ := step_holdsOrGone age sid v s e hs
      (fun rnd a k he => hfresh rnd a k (he ▸ List.mem_cons_self _ _))
    obtain ⟨s2, h2, hs2, hle2⟩ := ih s1 hs1
      (fun rnd a k he => hfresh rnd a k (List.mem_cons_of_mem _ he))
    exact ⟨s2, by simp only [system.run, h1, h2], hs2, le_trans hle1 hle2⟩

/-- The rendering of a UUID of sixteen bytes has thirty-six characters. -/
theorem newString_length (rnd : Nat → Nat) : (uuid.NewString rnd).length = 36 := by
  have hlen : (uuid.NewRandom rnd).length = 16 := by simp [uuid.NewRandom]
  have hhex : ∀ bs : List Nat, (uuid.hex bs).length = 2 * bs.length := by
    intro bs
    induction bs with
    | nil => rfl
    | cons b bs ih =>
      simp only [uuid.hex, List.flatMap_cons, List.length_append, List.length_cons] at ih ⊢
      simp only [uuid.hexByte, List.length_cons, List.length_nil]
      omega
  simp only [uuid.NewString, uuid.UUID.String, String.length, List.length_append,
    List.length_cons, hhex, List.length_take, List.length_drop, hlen]
  rfl

theorem newString_ne_empty (rnd : Nat → Nat) : uuid.NewString rnd ≠ "" := by
  intro h
  have := newString_length rnd
  rw [h] at this
  exact absurd this (by decide)

/-- Time passing alone leaves the engine as it is. -/
theorem run_advance (age : Duration) (ds : List Nat) :
    ∀ s : system.State, system.run age s (ds.map system.Event.advance)
      = some { s with now := s.now.Add (ds.sum : Nat) } := by
  induction ds with
  | nil => intro s; simp [system.run, Time.Add]
  | cons d ds ih =>
    intro s
    simp only [List.map_cons, system.run, system.step, ih, List.sum_cons, Time.Add,
      Nat.cast_add, add_assoc]

/-- The keys after a write whose identifier is new. -/
theorem keys_after_write (db : InMemory) (m : SessionMap) (hm : db.data = some m)
    (newId : String) (v : Option datastore.Session) (hfresh : newId ∉ db.keys) :
    InMemory.keys { db with data := some (m.insert newId v) } = newId :: db.keys := by
  have hk : newId ∉ m.keys := by simpa [InMemory.keys, hm] using hfresh
  simp [InMemory.keys, hm, AList.keys_insert, List.erase_of_not_mem hk]


/-! ### The rendering of a UUID is injective -/

theorem digitChar_injective_lt16 :
    ∀ i j : Fin 16, Nat.digitChar i.val = Nat.digitChar j.val → i = j := by
  decide

theorem hexByte_injective {a b : Nat} (ha : a < 256) (hb : b < 256)
    (h : uuid.hexByte a = uuid.hexByte b) : a = b := by
  simp only [uuid.hexByte, List.cons.injEq, and_true] at h
  have h1 := digitChar_injective_lt16 ⟨a / 16 % 16, Nat.mod_lt _ (by decide)⟩
    ⟨b / 16 % 16, Nat.mod_lt _ (by decide)⟩ h.1
  have h2 := digitChar_injective_lt16 ⟨a % 16, Nat.mod_lt _ (by decide)⟩
    ⟨b % 16, Nat.mod_lt _ (by decide)⟩ h.2
  have h1' : a / 16 % 16 = b / 16 % 16 := congrArg Fin.val h1
  have h2' : a % 16 = b % 16 := congrArg Fin.val h2
  omega

theorem hex_length (bs : List Nat) : (uuid.hex bs).length = 2 * bs.length := by
  induction bs with
  | nil => rfl
  | cons b bs ih =>
    simp only [uuid.hex, List.flatMap_cons, List.length_append, List.length_cons] at ih ⊢
    simp only [uuid.hexByte, List.length_cons, List.length_nil]
    omega

theorem hex_injective : ∀ (l1 l2 : List Nat), (∀ b ∈ l1, b < 256) → (∀ b ∈ l2, b < 256) →
    uuid.hex l1 = uuid.hex l2 → l1 = l2 := by
  intro l1
  induction l1 with
  | nil =>
    intro l2 _ _ h
    cases l2 with
    | nil => rfl
    | cons b bs => simp [uuid.hex, uuid.hexByte] at h
  | cons a as ih =>
    intro l2 h1 h2 h
    cases l2 with
    | nil => simp [uuid.hex, uuid.hexByte] at h
    | cons b bs =>
      simp only [uuid.hex, List.flatMap_cons, uuid.hexByte, List.cons_append, List.nil_append,
        List.cons.injEq] at h
      obtain ⟨hc1, hc2, hrest⟩ := h
      have hab : a = b := hexByte_injective (h1 a (List.mem_cons_self _ _))
        (h2 b (List.mem_cons_self _ _)) (by simp [uuid.hexByte, hc1, hc2])
      have := ih bs (fun x hx => h1 x (List.mem_cons_of_mem _ hx))
        (fun x hx => h2 x (List.mem_cons_of_mem _ hx)) hrest
      rw [hab, this]

theorem newRandom_length (rnd : Nat → Nat) : (uuid.NewRandom rnd).length = 16 := by
  simp [uuid.NewRandom]

theorem newRandom_lt (rnd : Nat → Nat) : ∀ b ∈ uuid.NewRandom rnd, b < 256 := by
  intro b hb
  simp only [uuid.NewRandom, List.mem_map, List.mem_range] at hb
  obtain ⟨i, _, rfl⟩ := hb
  have : rnd i % 256 < 256 := Nat.mod_lt _ (by decide)
  split_ifs <;> omega

/-- Two UUIDs of sixteen bytes with the same rendering are the same UUID. -/
theorem uuidString_injective {u v : uuid.UUID} (hu : u.length = 16) (hv : v.length = 16)
    (hub : ∀ b ∈ u, b < 256) (hvb : ∀ b ∈ v, b < 256)
    (h : uuid.UUID.String u = uuid.UUID.String v) : u = v := by
  have hd := congrArg String.data h
  simp only [uuid.UUID.String, List.append_assoc, List.cons_append] at hd
  have sub : ∀ {w : uuid.UUID} {l : List Nat}, (∀ b ∈ w, b < 256) →
      (∀ b ∈ l, b ∈ w) → ∀ b ∈ l, b < 256 := fun hw hl b hb => hw b (hl b hb)
  have e1 := List.append_inj hd (by simp [hex_length, hu, hv])
  have h1 := hex_injective _ _ (sub hub fun b hb => List.mem_of_mem_take hb)
    (sub hvb fun b hb => List.mem_of_mem_take hb) e1.1
  have e2 := List.append_inj (List.cons.inj e1.2).2 (by simp [hex_length, hu, hv])
  have h2 := hex_injective _ _
    (sub hub fun b hb => List.mem_of_mem_drop (List.mem_of_mem_take hb))
    (sub hvb fun b hb => List.mem_of_mem_drop (List.mem_of_mem_take hb)) e2.1
  have e3 := List.append_inj (List.cons.inj e2.2).2 (by simp [hex_length, hu, hv])
  have h3 := hex_injective _ _
    (sub hub fun b hb => List.mem_of_mem_drop (List.mem_of_mem_take hb))
    (sub hvb fun b hb => List.mem_of_mem_drop (List.mem_of_mem_take hb)) e3.1
  have e4 := List.append_inj (List.cons.inj e3.2).2 (by simp [hex_length, hu, hv])
  have h4 := hex_injective _ _
    (sub hub fun b hb => List.mem_of_mem_drop (List.mem_of_mem_take hb))
    (sub hvb fun b hb => List.mem_of_mem_drop (List.mem_of_mem_take hb)) e4.1
  have h5 := hex_injective _ _ (sub hub fun b hb => List.mem_of_mem_drop hb)
    (sub hvb fun b hb => List.mem_of_mem_drop hb) (List.cons.inj e4.2).2
  have split : ∀ w : uuid.UUID, w = w.take 4 ++ ((w.drop 4).take 2 ++ ((w.drop 6).take 2
      ++ ((w.drop 8).take 2 ++ w.drop 10))) := by
    intro w
    have a1 : (w.drop 8).take 2 ++ w.drop 10 = w.drop 8 := by
      have := List.take_append_drop 2 (w.drop 8)
      simpa [List.drop_drop] using this
    have a2 : (w.drop 6).take 2 ++ w.drop 8 = w.drop 6 := by
      have := List.take_append_drop 2 (w.drop 6)
      simpa [List.drop_drop] using this
    have a3 : (w.drop 4).take 2 ++ w.drop 6 = w.drop 4 := by
      have := List.take_append_drop 2 (w.drop 4)
      simpa [List.drop_drop] using this
    rw [a1, a2, a3, List.take_append_drop]
  rw [split u, split v, h1, h2, h3, h4, h5]

theorem newString_injective {r1 r2 : Nat → Nat}
    (h : uuid.NewString r1 = uuid.NewString r2) : uuid.NewRandom r1 = uuid.NewRandom r2 :=
  uuidString_injective (newRandom_length r1) (newRandom_length r2) (newRandom_lt r1)
    (newRandom_lt r2) h


/-! ### Runs of the transition system -/

theorem run_append (age : Duration) (xs ys : List system.Event) :
    ∀ s : system.State, system.run age s (xs ++ ys) =
      (system.run age s xs).bind fun m => system.run age m ys := by
  induction xs with
  | nil => intro s; rfl
  | cons e es ih =>
    intro s
    simp only [List.cons_append, system.run]
    cases system.step age s e with
    | none => rfl
    | some s' => exact ih s'

/-- On an engine whose map is allocated every event returns; the map stays allocated, the
engine keeps its `maxSessionAge` and the clock does not go back. -/
theorem step_total (age : Duration) (s : system.State) (e : system.Event)
    (hlive : s.engine.data ≠ none) :
    ∃ s', system.step age s e = some s' ∧ s'.engine.data ≠ none
      ∧ s'.engine.maxSessionAge = s.engine.maxSessionAge ∧ s.now.nanos ≤ s'.now.nanos := by
  obtain ⟨m, hm⟩ := Option.ne_none_iff_exists'.mp hlive
  cases e with
  | advance d => exact ⟨_, rfl, hlive, rfl, by simp [Time.Add]⟩
  | createSession rnd a k =>
    exact ⟨{ s with engine := { s.engine with
        data := some (m.insert (uuid.NewString rnd)
          (some { AlgorithmName := a, Key := k, CreatedAt := s.now })) } },
      by simp only [system.step, newSession_eq hm], by simp, rfl, le_refl _⟩
  | getSession id =>
    obtain ⟨r, hr⟩ := getSession_state age (fun _ => 0, s.now) s.now s.engine id
    exact ⟨s, by simp only [system.step, hr], hlive, rfl, le_refl _⟩
  | sweep dur delay =>
    refine ⟨_, rfl, ?_, ?_, ?_⟩
    · simp [InMemory.cleanUpExpiredSessions, hm]
    · exact cleanUpExpiredSessions_maxSessionAge _ _
    · simp [Time.Add]

theorem run_total (age : Duration) (evs : List system.Event) :
    ∀ s : system.State, s.engine.data ≠ none →
      ∃ s', system.run age s evs = some s' ∧ s'.engine.data ≠ none
        ∧ s'.engine.maxSessionAge = s.engine.maxSessionAge ∧ s.now.nanos ≤ s'.now.nanos := by
  induction evs with
  | nil => intro s hs; exact ⟨s, rfl, hs, rfl, le_refl _⟩
  | cons e es ih =>
    intro s hs
    obtain ⟨s1, h1, hl1, ha1, hle1⟩ := step_total age s e hs
    obtain ⟨s2, h2, hl2, ha2, hle2⟩ := ih s1 hl1
    exact ⟨s2, by simp only [system.run, h1, h2], hl2, ha2.trans ha1, le_trans hle1 hle2⟩

/-- What the retrieval argument carries from state to state: the map is allocated, the
engine sweeps with `age`, and the identifier `sid` still holds the record `v` unless the
clock has passed the record's expiry instant. -/
def holdsOrLate (age : Duration) (sid : String) (v : datastore.Session)
    (s : system.State) : Prop :=
  s.engine.data ≠ none ∧ s.engine.maxSessionAge = age
    ∧ (s.engine.index sid = some (some v) ∨ (v.CreatedAt.Add age).nanos < s.now.nanos)

theorem step_holdsOrLate (age : Duration) (hdur : isDuration age) (sid : String)
    (v : datastore.Session) (s : system.State) (e : system.Event)
    (hs : holdsOrLate age sid v s)
    (hfresh : ∀ rnd a k, e = system.Event.createSession rnd a k → uuid.NewString rnd ≠ sid) :
    ∃ s', system.step age s e = some s' ∧ holdsOrLate age sid v s' := by
  obtain ⟨hlive, hage, hidx⟩ := hs
  obtain ⟨m, hm⟩ := Option.ne_none_iff_exists'.mp hlive
  cases e with
  | advance d =>
    refine ⟨_, rfl, hlive, hage, ?_⟩
    rcases hidx with h | h
    · exact Or.inl h
    · right
      have hd : (0 : Int) ≤ (d : Int) := Int.ofNat_nonneg d
      simp only [Time.Add] at h ⊢
      omega
  | createSession rnd a k =>
    have hne : sid ≠ uuid.NewString rnd := fun h => hfresh rnd a k rfl h.symm
    refine ⟨{ s with engine := { s.engine with
        data := some (m.insert (uuid.NewString rnd)
          (some { AlgorithmName := a, Key := k, CreatedAt := s.now })) } },
      by simp only [system.step, newSession_eq hm], by simp, hage, ?_⟩
    rcases hidx with h | h
    · left
      simp only [index_after_write, if_neg hne]
      rw [← index_of_data hm]
      exact h
    · exact Or.inr h
  | getSession id =>
    obtain ⟨r, hr⟩ := getSession_state age (fun _ => 0, s.now) s.now s.engine id
    exact ⟨s, by simp only [system.step, hr], hlive, hage, hidx⟩
  | sweep dur delay =>
    refine ⟨_, rfl, ?_, ?_, ?_⟩
    · simp [InMemory.cleanUpExpiredSessions, hm]
    · rw [cleanUpExpiredSessions_maxSessionAge]; exact hage
    · rcases hidx with h | h
      · by_cases hc : sweepCondition s.engine.maxSessionAge
            (s.now.Add (min (delay sid) dur)) (some v) = true
        · right
          rw [hage] at hc
          simp only [sweepCondition, decide_eq_true_eq] at hc
          have hb := before_of_sub_gt hdur hc
          simp only [Time.Before, Time.Add, decide_eq_true_eq] at hb ⊢
          have : ((min (delay sid) dur : Nat) : Int) ≤ (dur : Int) :=
            Int.ofNat_le.mpr (Nat.min_le_right _ _)
          omega
        · left
          simp only [cleanUpExpiredSessions_index, h, if_neg hc]
      · right
        have hd : (0 : Int) ≤ (dur : Int) := Int.ofNat_nonneg dur
        simp only [Time.Add] at h ⊢
        omega

theorem run_holdsOrLate (age : Duration) (hdur : isDuration age) (sid : String)
    (v : datastore.Session) (evs : List system.Event) :
    ∀ s : system.State, holdsOrLate age sid v s →
      (∀ rnd a k, system.Event.createSession rnd a k ∈ evs → uuid.NewString rnd ≠ sid) →
      ∃ s', system.run age s evs = some s' ∧ holdsOrLate age sid v s' := by
  induction evs with
  | nil => intro s hs _; exact ⟨s, rfl, hs⟩
  | cons e es ih =>
    intro s hs hfresh
    obtain ⟨s1, h1, hs1⟩ := step_holdsOrLate age hdur sid v s e hs
      (fun rnd a k he => hfresh rnd a k (he ▸ List.mem_cons_self _ _))
    obtain ⟨s2, h2, hs2⟩ := ih s1 hs1
      (fun rnd a k he => hfresh rnd a k (List.mem_cons_of_mem _ he))
    exact ⟨s2, by simp only [system.run, h1, h2], hs2⟩

theorem drawn_append (xs ys : List system.Event) :
    system.drawn (xs ++ ys) = system.drawn xs ++ system.drawn ys := by
  induction xs with
  | nil => rfl
  | cons e es ih => cases e <;> simp [system.drawn, ih]

theorem mem_drawn_of_mem {rnd : Nat → Nat} {a k : String} {evs : List system.Event}
    (h : system.Event.createSession rnd a k ∈ evs) : uuid.NewRandom rnd ∈ system.drawn evs := by
  induction evs with
  | nil => exact absurd h (List.not_mem_nil _)
  | cons e es ih =>
    rcases List.mem_cons.mp h with rfl | h'
    · simp [system.drawn]
    · cases e <;> simp [system.drawn, ih h']

theorem exists_of_mem_drawn {u : uuid.UUID} {evs : List system.Event}
    (h : u ∈ system.drawn evs) : ∃ rnd, u = uuid.NewRandom rnd := by
  induction evs with
  | nil => exact absurd h (List.not_mem_nil _)
  | cons e es ih =>
    cases e with
    | createSession rnd a k =>
      simp only [system.drawn, List.mem_cons] at h
      rcases h with rfl | h
      · exact ⟨rnd, rfl⟩
      · exact ih h
    | advance d => exact ih (by simpa [system.drawn] using h)
    | getSession id => exact ih (by simpa [system.drawn] using h)
    | sweep dur delay => exact ih (by simpa [system.drawn] using h)


/-! ### Base64: decoding undoes encoding -/

theorem encodeChar_facts : ∀ v : Fin 64,
    base64.decodeChar (base64.encodeChar v.val) = some v.val
      ∧ base64.encodeChar v.val ≠ base64.padChar
      ∧ base64.encodeChar v.val ≠ 10 ∧ base64.encodeChar v.val ≠ 13 := by
  decide

theorem decodeChar_encodeChar (n : Nat) :
    base64.decodeChar (base64.encodeChar (n % 64)) = some (n % 64) :=
  (encodeChar_facts ⟨n % 64, Nat.mod_lt _ (by decide)⟩).1

theorem encodeChar_ne_pad (n : Nat) : base64.encodeChar (n % 64) ≠ base64.padChar :=
  (encodeChar_facts ⟨n % 64, Nat.mod_lt _ (by decide)⟩).2.1

theorem encodeChar_no_break (n : Nat) :
    decide (base64.encodeChar (n % 64) ≠ 10 ∧ base64.encodeChar (n % 64) ≠ 13) = true := by
  have h := encodeChar_facts ⟨n % 64, Nat.mod_lt _ (by decide)⟩
  exact decide_eq_true ⟨h.2.2.1, h.2.2.2⟩

theorem padChar_no_break :
    decide (base64.padChar ≠ 10 ∧ base64.padChar ≠ 13) = true := by
  decide

/-- An encoding holds no line break, so the decoder's first pass leaves it as it is. -/
theorem filter_encodeToString (bs : List Byte) :
    (base64.EncodeToString bs).filter (fun c => decide (c ≠ 10 ∧ c ≠ 13))
      = base64.EncodeToString bs := by
  induction bs using base64.EncodeToString.induct with
  | case1 a b c rest ih =>
    simp only [base64.EncodeToString, List.filter_cons, encodeChar_no_break, if_true, ih]
  | case2 a b =>
    simp only [base64.EncodeToString, List.filter_cons, encodeChar_no_break,
      padChar_no_break, if_true, List.filter_nil]
  | case3 a =>
    simp only [base64.EncodeToString, List.filter_cons, encodeChar_no_break,
      padChar_no_break, if_true, List.filter_nil]
  | case4 => rfl

theorem ofNat_three (a b c : Byte) :
    let val := a.val * 65536 + b.val * 256 + c.val
    let val' := val / 262144 % 64 * 262144 + val / 4096 % 64 * 4096 + val / 64 % 64 * 64
      + val % 64
    (Fin.ofNat (val' / 65536) : Byte) = a ∧ (Fin.ofNat (val' / 256) : Byte) = b
      ∧ (Fin.ofNat val' : Byte) = c := by
  have ha := a.isLt
  have hb := b.isLt
  have hc := c.isLt
  refine ⟨Fin.ext ?_, Fin.ext ?_, Fin.ext ?_⟩ <;> simp only [Fin.ofNat] <;> omega

theorem ofNat_two (a b : Byte) :
    let val := a.val * 65536 + b.val * 256
    let val' := val / 262144 % 64 * 262144 + val / 4096 % 64 * 4096 + val / 64 % 64 * 64
    (Fin.ofNat (val' / 65536) : Byte) = a ∧ (Fin.ofNat (val' / 256) : Byte) = b := by
  have ha := a.isLt
  have hb := b.isLt
  refine ⟨Fin.ext ?_, Fin.ext ?_⟩ <;> simp only [Fin.ofNat] <;> omega

theorem ofNat_one (a : Byte) :
    let val := a.val * 65536
    let val' := val / 262144 % 64 * 262144 + val / 4096 % 64 * 4096
    (Fin.ofNat (val' / 65536) : Byte) = a := by
  have ha := a.isLt
  refine Fin.ext ?_
  simp only [Fin.ofNat]
  omega

theorem decodeQuanta_encodeToString (bs : List Byte) :
    base64.decodeQuanta (base64.EncodeToString bs) = some bs := by
  induction bs using base64.EncodeToString.induct with
  | case1 a b c rest ih =>
    have h3 := ofNat_three a b c
    simp only at h3
    simp only [base64.EncodeToString, base64.decodeQuanta, decodeChar_encodeChar,
      encodeChar_ne_pad, if_false, ih, Option.map_some', h3.1, h3.2.1, h3.2.2]
  | case2 a b =>
    have h2 := ofNat_two a b
    simp only at h2
    simp only [base64.EncodeToString, base64.decodeQuanta, decodeChar_encodeChar,
      encodeChar_ne_pad, if_false, if_true, h2.1, h2.2]
  | case3 a =>
    have h1 := ofNat_one a
    simp only at h1
    simp only [base64.EncodeToString, base64.decodeQuanta, decodeChar_encodeChar,
      and_self, if_true, h1]
  | case4 => rfl

/-- Base64: `DecodeString` accepts every output of `EncodeToString` and gives back the
bytes that were encoded. -/
theorem decodeString_encodeToString (bs : List Byte) :
    base64.DecodeString (base64.EncodeToString bs) = some bs := by
  rw [base64.DecodeString, filter_encodeToString, decodeQuanta_encodeToString]


/-! ### CFB: decrypting undoes encrypting -/

theorem xorByte_cancel (a k : Byte) : xorByte (xorByte a k) k = a := by
  apply Fin.ext
  simp only [xorByte]
  rw [Nat.xor_assoc, Nat.xor_self, Nat.xor_zero]

theorem xorBytes_cancel : ∀ (x k : List Byte), x.length ≤ k.length →
    xorBytes (xorBytes x k) k = x := by
  intro x
  induction x with
  | nil => intro k _; simp [xorBytes]
  | cons a x ih =>
    intro k hk
    cases k with
    | nil => simp at hk
    | cons b k =>
      have := ih k (by simpa using hk)
      simp only [xorBytes, List.zipWith_cons_cons, xorByte_cancel, List.cons.injEq,
        true_and] at this ⊢
      exact this

theorem xorBytes_length (x k : List Byte) :
    (xorBytes x k).length = min x.length k.length := by
  simp [xorBytes]

theorem cfbEncryptLoop_nil (b : cipher.Block) (fuel : Nat) (next : List Byte) :
    cipher.cfbEncryptLoop b fuel next [] = [] := by
  cases fuel <;> simp [cipher.cfbEncryptLoop]

theorem cfbDecryptLoop_nil (b : cipher.Block) (fuel : Nat) (next : List Byte) :
    cipher.cfbDecryptLoop b fuel next [] = [] := by
  cases fuel <;> simp [cipher.cfbDecryptLoop]

/-- The key stream loop writes as many bytes as it reads. -/
theorem cfbEncryptLoop_length (b : cipher.Block) :
    ∀ (fuel : Nat) (next src : List Byte), src.length ≤ fuel →
      (cipher.cfbEncryptLoop b fuel next src).length = src.length := by
  intro fuel
  induction fuel with
  | zero =>
    intro next src h
    have : src = [] := List.length_eq_zero.mp (Nat.le_zero.mp h)
    subst this
    rfl
  | succ fuel ih =>
    intro next src h
    by_cases hs : src = []
    · subst hs; rfl
    · have hpos : 0 < src.length := List.length_pos.mpr hs
      have hbs := b.BlockSize_pos
      simp only [cipher.cfbEncryptLoop, if_neg hs, List.length_append, xorBytes_length,
        List.length_take, b.Encrypt_length]
      rw [ih _ _ (by simp only [List.length_drop]; omega)]
      simp only [List.length_drop]
      omega

theorem cfbDecryptLoop_length (b : cipher.Block) :
    ∀ (fuel : Nat) (next src : List Byte), src.length ≤ fuel →
      (cipher.cfbDecryptLoop b fuel next src).length = src.length := by
  intro fuel
  induction fuel with
  | zero =>
    intro next src h
    have : src = [] := List.length_eq_zero.mp (Nat.le_zero.mp h)
    subst this
    rfl
  | succ fuel ih =>
    intro next src h
    by_cases hs : src = []
    · subst hs; rfl
    · have hpos : 0 < src.length := List.length_pos.mpr hs
      have hbs := b.BlockSize_pos
      simp only [cipher.cfbDecryptLoop, if_neg hs, List.length_append, xorBytes_length,
        List.length_take, b.Encrypt_length]
      rw [ih _ _ (by simp only [List.length_drop]; omega)]
      simp only [List.length_drop]
      omega

/-- CFB: run over what the encrypter wrote, from the same IV, the decrypter writes what
the encrypter read. -/
theorem cfbDecryptLoop_cfbEncryptLoop (b : cipher.Block) :
    ∀ (f1 f2 : Nat) (next src : List Byte), src.length ≤ f1 → src.length ≤ f2 →
      cipher.cfbDecryptLoop b f2 next (cipher.cfbEncryptLoop b f1 next src) = src := by
  intro f1
  induction f1 with
  | zero =>
    intro f2 next src h1 _
    have : src = [] := List.length_eq_zero.mp (Nat.le_zero.mp h1)
    subst this
    simp only [cipher.cfbEncryptLoop, cfbDecryptLoop_nil]
  | succ f1 ih =>
    intro f2 next src h1 h2
    by_cases hs : src = []
    · subst hs
      simp only [cfbEncryptLoop_nil, cfbDecryptLoop_nil]
    · have hpos : 0 < src.length := List.length_pos.mpr hs
      have hbs := b.BlockSize_pos
      obtain ⟨f2', rfl⟩ : ∃ n, f2 = n + 1 := ⟨f2 - 1, by omega⟩
      have hdst : (xorBytes (src.take b.BlockSize) (b.Encrypt next)).length
          = min src.length b.BlockSize := by
        simp only [xorBytes_length, List.length_take, b.Encrypt_length]
        omega
      have hcancel : xorBytes (xorBytes (src.take b.BlockSize) (b.Encrypt next))
          (b.Encrypt next) = src.take b.BlockSize :=
        xorBytes_cancel _ _ (by simp only [List.length_take, b.Encrypt_length]; omega)
      have hne : xorBytes (src.take b.BlockSize) (b.Encrypt next)
          ++ cipher.cfbEncryptLoop b f1 (xorBytes (src.take b.BlockSize) (b.Encrypt next))
              (src.drop b.BlockSize) ≠ [] := by
        intro h
        have := congrArg List.length h
        simp only [List.length_append, hdst, List.length_nil] at this
        omega
      simp only [cipher.cfbEncryptLoop, if_neg hs, cipher.cfbDecryptLoop, if_neg hne]
      by_cases hfull : b.BlockSize ≤ src.length
      · have hlen : (xorBytes (src.take b.BlockSize) (b.Encrypt next)).length
            = b.BlockSize := by rw [hdst]; omega
        rw [List.take_left' hlen, List.drop_left' hlen, hcancel,
          ih f2' _ (src.drop b.BlockSize) (by simp only [List.length_drop]; omega)
            (by simp only [List.length_drop]; omega),
          List.take_append_drop]
      · have hdrop : src.drop b.BlockSize = [] :=
          List.drop_eq_nil_of_le (by omega)
        have hlen : (xorBytes (src.take b.BlockSize) (b.Encrypt next)).length
            ≤ b.BlockSize := by rw [hdst]; omega
        rw [hdrop, cfbEncryptLoop_nil, List.append_nil, List.take_of_length_le hlen,
          List.drop_eq_nil_of_le hlen, cfbDecryptLoop_nil, List.append_nil, hcancel,
          List.take_of_length_le (by omega)]


/-! ### `Encrypt` and `Decrypt` -/

/-- With a key of the size the algorithm requires, the `switch` of `Encrypt` and
`Decrypt` finds a cipher, of block size 8 for DES and 16 otherwise. -/
theorem selectCipher_of_valid (P : BlockCiphers) (algo : encryption.Algorithm)
    (key : List Byte)
    (hkey : (algo = encryption.AES128 ∧ key.length = 16)
      ∨ (algo = encryption.AES192 ∧ key.length = 24)
      ∨ (algo = encryption.AES256 ∧ key.length = 32)
      ∨ (algo = encryption.DES ∧ key.length = 8)) :
    ∃ block : cipher.Block,
      encryption.selectCipher P algo key = some (block.BlockSize, .ok block)
        ∧ block.BlockSize = (if algo = encryption.DES then 8 else 16) := by
  rcases hkey with ⟨rfl, hk⟩ | ⟨rfl, hk⟩ | ⟨rfl, hk⟩ | ⟨rfl, hk⟩
  · exact ⟨{ BlockSize := aes.BlockSize, Encrypt := P.aesEncrypt key,
             BlockSize_pos := by decide, Encrypt_length := P.aesEncrypt_length key },
      by simp [encryption.selectCipher, aes.NewCipher, hk],
      by simp [aes.BlockSize, encryption.AES128, encryption.AES192, encryption.AES256,
        encryption.DES]⟩
  · exact ⟨{ BlockSize := aes.BlockSize, Encrypt := P.aesEncrypt key,
             BlockSize_pos := by decide, Encrypt_length := P.aesEncrypt_length key },
      by simp [encryption.selectCipher, aes.NewCipher, hk],
      by simp [aes.BlockSize, encryption.AES128, encryption.AES192, encryption.AES256,
        encryption.DES]⟩
  · exact ⟨{ BlockSize := aes.BlockSize, Encrypt := P.aesEncrypt key,
             BlockSize_pos := by decide, Encrypt_length := P.aesEncrypt_length key },
      by simp [encryption.selectCipher, aes.NewCipher, hk],
      by simp [aes.BlockSize, encryption.AES128, encryption.AES192, encryption.AES256,
        encryption.DES]⟩
  · have h1 : ¬ (encryption.DES = encryption.AES128 ∨ encryption.DES = encryption.AES192
        ∨ encryption.DES = encryption.AES256) := by decide
    exact ⟨{ BlockSize := des.BlockSize, Encrypt := P.desEncrypt key,
             BlockSize_pos := by decide, Encrypt_length := P.desEncrypt_length key },
      by simp only [encryption.selectCipher, if_neg h1, if_true, des.NewCipher, hk],
      by simp [des.BlockSize]⟩

theorem readFull_some (rnd : Nat → Byte) (n : Nat) :
    ∃ iv, readFull (some rnd) n = some iv ∧ iv.length = n := by
  by_cases h : n = 0
  · exact ⟨[], by simp [readFull, h], by simp [h]⟩
  · exact ⟨(List.range n).map rnd, by simp [readFull, h], by simp⟩


/-- The converse of `add_lt_of_lt_saturate`, away from the corner where saturation
bites. -/
theorem lt_saturate_of_add_lt (a c n : Int) (h1 : -(2 ^ 63) ≤ a) (h2 : a ≤ 2 ^ 63 - 1)
    (h : a < 2 ^ 63 - 1 ∨ n - c ≤ 2 ^ 63 - 1) (hb : c + a < n) :
    a < (if n - c > 2 ^ 63 - 1 then 2 ^ 63 - 1
         else if n - c < -(2 ^ 63) then -(2 ^ 63) else n - c) := by
  split_ifs <;> omega

/-- An expiry instant strictly before the reading is an age above `maxSessionAge` for
the sweep, unless `maxSessionAge` is the largest `Duration` and the age is beyond it. -/
theorem sub_gt_of_before {age : Duration} (hage : isDuration age) {now created : Time}
    (hcorner : age < maxDuration ∨ now.nanos - created.nanos ≤ maxDuration)
    (h : (created.Add age).Before now = true) : now.Sub created > age := by
  simp only [Time.Before, Time.Add, decide_eq_true_eq] at h
  exact lt_saturate_of_add_lt age created.nanos now.nanos hage.1 hage.2 hcorner h


/-! ### `Bind` -/

/-- A string that `TrimSpace` empties is made of white space only. -/
theorem all_space_of_trimSpace_eq_empty {s : String} (h : strings.TrimSpace s = "") :
    ∀ c ∈ s.data, unicode.IsSpace c = true := by
  have hd : (s.data.dropWhile unicode.IsSpace).rdropWhile unicode.IsSpace = [] :=
    congrArg String.data h
  have hall := List.rdropWhile_eq_nil_iff.mp hd
  have hnil : s.data.dropWhile unicode.IsSpace = [] := by
    by_contra hne
    have hhead := List.head_dropWhile_not unicode.IsSpace s.data hne
    rw [hall _ (List.head_mem hne)] at hhead
    exact Bool.noConfusion hhead
  exact List.dropWhile_eq_nil_iff.mp hnil

/-- Lower-casing and removing hyphens leaves a string of white space a string of white
space. -/
theorem all_space_normalised (U : unicode.CaseTable) {s : String}
    (h : ∀ c ∈ s.data, unicode.IsSpace c = true) :
    ∀ c ∈ (strings.removeAll (strings.ToLower U s) '-').data, unicode.IsSpace c = true := by
  intro c hc
  simp only [strings.removeAll, strings.ToLower, List.mem_filter, List.mem_map] at hc
  obtain ⟨⟨c0, hc0, rfl⟩, _⟩ := hc
  rw [U.ToLower_space c0 (h c0 hc0)]
  exact h c0 hc0

/-- The loop over `Algorithms()` in `Bind`. -/
theorem supported_iff (name : String) :
    encryption.Algorithms.foldl
        (fun supported algo => if algo = name then true else supported) false = true
      ↔ name = "aes128" ∨ name = "aes192" ∨ name = "aes256" ∨ name = "des" := by
  simp only [encryption.Algorithms, encryption.supportedSymmetricAlgorithms, List.foldl]
  by_cases h1 : name = "aes128"
  · subst h1; decide
  · by_cases h2 : name = "aes192"
    · subst h2; decide
    · by_cases h3 : name = "aes256"
      · subst h3; decide
      · by_cases h4 : name = "des"
        · subst h4; decide
        · have e1 : ¬ "aes128" = name := fun h => h1 h.symm
          have e2 : ¬ "aes192" = name := fun h => h2 h.symm
          have e3 : ¬ "aes256" = name := fun h => h3 h.symm
          have e4 : ¬ "des" = name := fun h => h4 h.symm
          simp [h1, h2, h3, h4, e1, e2, e3, e4]

/-- On the four supported names `algorithmFromText` returns the algorithm of that
name. -/
theorem algorithmFromText_of_supported {name : String}
    (h : name = "aes128" ∨ name = "aes192" ∨ name = "aes256" ∨ name = "des") :
    api.algorithmFromText name = name := by
  rcases h with rfl | rfl | rfl | rfl <;> decide

/-- With a key of the size the algorithm requires neither `Encrypt` nor `Decrypt` fails
with `ErrCipherCreation`. -/
theorem no_cipherCreation_error (P : BlockCiphers) (entropy : Option (Nat → Byte))
    (algo : encryption.Algorithm) (key text : List Byte)
    (hkey : (algo = encryption.AES128 ∧ key.length = 16)
      ∨ (algo = encryption.AES192 ∧ key.length = 24)
      ∨ (algo = encryption.AES256 ∧ key.length = 32)
      ∨ (algo = encryption.DES ∧ key.length = 8)) :
    encryption.Encrypt P entropy algo key text
        ≠ some (.error encryption.Error.ErrCipherCreation)
      ∧ encryption.Decrypt P algo key text
        ≠ some (.error encryption.Error.ErrCipherCreation) := by
  obtain ⟨block, hsel, _⟩ := selectCipher_of_valid P algo key hkey
  constructor
  · simp only [encryption.Encrypt, hsel]
    intro h
    split at h
    · simp at h
    · split at h <;> simp at h
  · simp only [encryption.Decrypt, hsel]
    intro h
    split at h
    · simp at h
    · split at h
      · simp at h
      · split at h <;> simp at h


theorem validateAlgoKeyPair_eq_true_iff (algo : encryption.Algorithm) (key : List Byte) :
    encryption.ValidateAlgoKeyPair algo key = true ↔
      (algo = encryption.AES128 ∧ key.length = 16)
        ∨ (algo = encryption.AES192 ∧ key.length = 24)
        ∨ (algo = encryption.AES256 ∧ key.length = 32)
        ∨ (algo = encryption.DES ∧ key.length = 8) := by
  have d1 : ("aes128" : String) ≠ "aes192" := by decide
  have d2 : ("aes128" : String) ≠ "aes256" := by decide
  have d3 : ("aes128" : String) ≠ "des" := by decide
  have d4 : ("aes192" : String) ≠ "aes256" := by decide
  have d5 : ("aes192" : String) ≠ "des" := by decide
  have d6 : ("aes256" : String) ≠ "des" := by decide
  unfold encryption.ValidateAlgoKeyPair encryption.AES128 encryption.AES192
    encryption.AES256 encryption.DES
  by_cases h1 : algo = "aes128"
  · subst h1; simp [d1, d2, d3]
  · by_cases h2 : algo = "aes192"
    · subst h2; simp [d1.symm, d4, d5]
    · by_cases h3 : algo = "aes256"
      · subst h3; simp [d2.symm, d4.symm, d6]
      · by_cases h4 : algo = "des"
        · subst h4; simp [d3.symm, d5.symm, d6.symm]
        · simp [h1, h2, h3, h4]

/-- None of the four supported names is made of white space only. -/
theorem not_all_space_of_supported {name : String}
    (h : name = "aes128" ∨ name = "aes192" ∨ name = "aes256" ∨ name = "des") :
    ¬ ∀ c ∈ name.data, unicode.IsSpace c = true := by
  intro hall
  rcases h with rfl | rfl | rfl | rfl
  · exact absurd (hall 'a' (by decide)) (by decide)
  · exact absurd (hall 'a' (by decide)) (by decide)
  · exact absurd (hall 'a' (by decide)) (by decide)
  · exact absurd (hall 'd' (by decide)) (by decide)

/-- What `Bind` returns for a request with a body, by cases. -/
theorem bind_eq (U : unicode.CaseTable) (s : api.Session) :
    api.SessionRequest.Bind U (some s) =
      if strings.TrimSpace s.AlgorithmName = "" then
        some (some s, some "algorithm_name is required.")
      else if ¬ (api.normalisedName U s.AlgorithmName = "aes128"
          ∨ api.normalisedName U s.AlgorithmName = "aes192"
          ∨ api.normalisedName U s.AlgorithmName = "aes256"
          ∨ api.normalisedName U s.AlgorithmName = "des") then
        some (some { s with AlgorithmName := api.normalisedName U s.AlgorithmName },
          some "unsupported algorithm")
      else if encryption.ValidateAlgoKeyPair (api.normalisedName U s.AlgorithmName)
          (bytesOfString s.Key) = false then
        some (some { s with AlgorithmName := api.normalisedName U s.AlgorithmName },
          some "invalid key size")
      else
        some (some { s with AlgorithmName := api.normalisedName U s.AlgorithmName },
          none) := by
  unfold api.SessionRequest.Bind
  by_cases ht : strings.TrimSpace s.AlgorithmName = ""
  · simp only [if_pos ht]
  · simp only [if_neg ht]
    by_cases hs : api.normalisedName U s.AlgorithmName = "aes128"
        ∨ api.normalisedName U s.AlgorithmName = "aes192"
        ∨ api.normalisedName U s.AlgorithmName = "aes256"
        ∨ api.normalisedName U s.AlgorithmName = "des"
    · have hsup := (supported_iff _).mpr hs
      simp only [hsup, Bool.not_true, Bool.false_eq_true, if_false, not_true_eq_false,
        hs, algorithmFromText_of_supported hs, Bool.not_eq_true']
    · have hsup : encryption.Algorithms.foldl
          (fun supported algo =>
            if algo = api.normalisedName U s.AlgorithmName then true else supported) false
          = false := by
        cases h : encryption.Algorithms.foldl
          (fun supported algo =>
            if algo = api.normalisedName U s.AlgorithmName then true else supported) false
        · rfl
        · exact absurd ((supported_iff _).mp h) hs
      simp only [hsup, Bool.not_false, if_true, hs, not_false_eq_true]

end Helpers

/-! ## Theorems -/

section Claims

open time datastore sessionstore

/-- C1 (counterexample): with `maxSessionAge = 0` a session created at instant 5 and
read back at the same instant comes back with `ExpiresAt` equal to the instant of the
read, not strictly later; with `maxSessionAge = -1` the same read reports
`ErrSessionExpired`. -/
theorem C1_counterexample_nonpositive_age :
    (((New InMemory.asDB 0).NewSession (fun _ => 0, ⟨5⟩) (NewInMemory 0) "aes128" "k").bind
        fun r => ((New InMemory.asDB 0).GetSession (fun _ => 0, ⟨5⟩) ⟨5⟩ r.1 r.2.1).map
          fun g => (g.2, g.2.1.map fun v => (⟨5⟩ : Time).Before v.ExpiresAt))
      = some ((some ⟨"aes128", "k", ⟨5⟩⟩, none), some false)
    ∧ (((New InMemory.asDB (-1)).NewSession (fun _ => 0, ⟨5⟩) (NewInMemory (-1))
          "aes128" "k").bind
        fun r => ((New InMemory.asDB (-1)).GetSession (fun _ => 0, ⟨5⟩) ⟨5⟩ r.1 r.2.1).map
          fun g => g.2)
      = some (none, some Error.ErrSessionExpired) := by
  constructor <;> decide

/-- C1 (amended): for every strictly positive `maxSessionAge`, every algorithm name and
key, every random draw and every instant `now`, on an engine whose map is allocated:
`NewSession` returns the generated identifier with a nil error, and `GetSession` on that
identifier at the same instant `now`, on the state the write left, returns a nil error
and a view with that algorithm name and key whose `ExpiresAt` is `now + maxSessionAge`,
strictly later than `now`. -/
theorem C1_create_then_get (age : Duration) (hage : 0 < age) (db : InMemory)
    (hlive : db.data ≠ none) (rnd : Nat → Nat) (now : Time) (algorithm key : String)
    (env : (Nat → Nat) × Time) :
    ∃ db' id view,
      (New InMemory.asDB age).NewSession (rnd, now) db algorithm key = some (db', (id, none))
      ∧ (New InMemory.asDB age).GetSession env now db' id = some (db', (some view, none))
      ∧ view.AlgorithmName = algorithm ∧ view.Key = key
      ∧ view.ExpiresAt = now.Add age
      ∧ now.Before view.ExpiresAt = true := by
  obtain ⟨m, hm⟩ := Option.ne_none_iff_exists'.mp hlive
  refine ⟨{ db with
      data := some (m.insert (uuid.NewString rnd)
        (some { AlgorithmName := algorithm, Key := key, CreatedAt := now })) },
    uuid.NewString rnd, ⟨algorithm, key, now.Add age⟩, ?_, ?_, rfl, rfl, rfl, ?_⟩
  · simp only [Store.NewSession, New, InMemory.asDB, writeSession_eq hm]
  · have hidx : InMemory.index { db with
          data := some (m.insert (uuid.NewString rnd)
            (some { AlgorithmName := algorithm, Key := key, CreatedAt := now })) }
        (uuid.NewString rnd) = some (some ⟨algorithm, key, now⟩) := by
      simp [InMemory.index]
    rw [getSession_of_index hidx]
    have hage' : (0 : Int) < age := hage
    have : ((now.Add age).Before now) = false := by
      simp [Time.Before, Time.Add]; omega
    simp [this]
  · have hage' : (0 : Int) < age := hage
    simp [Time.Before, Time.Add]; omega

/-- C1 (witness): the amended claim at `maxSessionAge` of ten minutes on a fresh
engine. -/
theorem C1_create_then_get_witness :
    (0 : Duration) < 10 * Minute ∧ (NewInMemory (10 * Minute)).data ≠ none ∧
    ∃ db' id view,
      (New InMemory.asDB (10 * Minute)).NewSession (fun _ => 0, ⟨5⟩)
          (NewInMemory (10 * Minute)) "aes128" "0123456789abcdef" = some (db', (id, none))
      ∧ (New InMemory.asDB (10 * Minute)).GetSession (fun _ => 0, ⟨0⟩) ⟨5⟩ db' id
          = some (db', (some view, none))
      ∧ view.AlgorithmName = "aes128" ∧ view.Key = "0123456789abcdef"
      ∧ view.ExpiresAt = (⟨5⟩ : Time).Add (10 * Minute)
      ∧ (⟨5⟩ : Time).Before view.ExpiresAt = true :=
  ⟨by decide, by decide,
    C1_create_then_get (10 * Minute) (by decide) (NewInMemory (10 * Minute)) (by decide)
      (fun _ => 0) ⟨5⟩ "aes128" "0123456789abcdef" (fun _ => 0, ⟨0⟩)⟩

/-- C2: for every record stored in the in-memory engine and every instant `now` such
that `CreatedAt + maxSessionAge` is strictly before `now`, `GetSession` on its
identifier returns `ErrSessionExpired` and no session, with the record still in the
store (the returned engine state is the one read, in which the record is present). -/
theorem C2_expired_before_sweep (age : Duration) (db : InMemory) (id : String)
    (v : datastore.Session) (now : Time) (env : (Nat → Nat) × Time)
    (hstored : db.index id = some (some v))
    (hpast : (v.CreatedAt.Add age).Before now = true) :
    (New InMemory.asDB age).GetSession env now db id
        = some (db, (none, some Error.ErrSessionExpired))
      ∧ db.index id = some (some v) := by
  refine ⟨?_, hstored⟩
  rw [getSession_of_index hstored, if_pos hpast]

/-- C2 (witness): a session written at instant 5 with `maxSessionAge = 10`, read at
instant 16 with no sweep in between. -/
theorem C2_expired_before_sweep_witness :
    (⟨some (AList.insert "s1" (some ⟨"aes128", "k", ⟨5⟩⟩) ∅), 10, true⟩ : InMemory).index "s1"
        = some (some ⟨"aes128", "k", ⟨5⟩⟩)
      ∧ ((⟨5⟩ : Time).Add 10).Before ⟨16⟩ = true
      ∧ ((New InMemory.asDB 10).GetSession (fun _ => 0, ⟨0⟩) ⟨16⟩
            ⟨some (AList.insert "s1" (some ⟨"aes128", "k", ⟨5⟩⟩) ∅), 10, true⟩ "s1"
          = some (⟨some (AList.insert "s1" (some ⟨"aes128", "k", ⟨5⟩⟩) ∅), 10, true⟩,
              (none, some Error.ErrSessionExpired))
        ∧ (⟨some (AList.insert "s1" (some ⟨"aes128", "k", ⟨5⟩⟩) ∅), 10, true⟩ : InMemory).index
            "s1" = some (some ⟨"aes128", "k", ⟨5⟩⟩)) :=
  ⟨by decide, by decide,
    C2_expired_before_sweep 10 ⟨some (AList.insert "s1" (some ⟨"aes128", "k", ⟨5⟩⟩) ∅), 10, true⟩
      "s1" ⟨"aes128", "k", ⟨5⟩⟩ ⟨16⟩ (fun _ => 0, ⟨0⟩) (by decide) (by decide)⟩

/-- C3 (counterexample): a record created at instant 5 with `maxSessionAge = 10` has
`expiresAt = 15`; read at instant 15 exactly, `GetSession` returns the view and a nil
error, not `ErrSessionExpired`. -/
theorem C3_counterexample_at_expiry_instant :
    (New InMemory.asDB 10).GetSession (fun _ => 0, ⟨0⟩) ⟨15⟩
        ⟨some (AList.insert "s1" (some ⟨"aes128", "k", ⟨5⟩⟩) ∅), 10, true⟩ "s1"
      = some (⟨some (AList.insert "s1" (some ⟨"aes128", "k", ⟨5⟩⟩) ∅), 10, true⟩,
          (some ⟨"aes128", "k", ⟨15⟩⟩, none)) := by
  rfl

/-- C3 (amended): for every record present in the store, `GetSession` reports
`ErrSessionExpired` exactly when `expiresAt = CreatedAt + maxSessionAge` is strictly
before the current time, and returns a view (with a nil error) exactly when `expiresAt`
is at or after the current time, in particular when the two are equal. -/
theorem C3_expired_iff_strictly_before (age : Duration) (db : InMemory) (id : String)
    (v : datastore.Session) (now : Time) (env : (Nat → Nat) × Time)
    (hstored : db.index id = some (some v)) :
    ((New InMemory.asDB age).GetSession env now db id
          = some (db, (none, some Error.ErrSessionExpired))
        ↔ (v.CreatedAt.Add age).nanos < now.nanos)
      ∧ ((New InMemory.asDB age).GetSession env now db id
          = some (db, (some ⟨v.AlgorithmName, v.Key, v.CreatedAt.Add age⟩, none))
        ↔ now.nanos ≤ (v.CreatedAt.Add age).nanos)
      ∧ ((∃ view, (New InMemory.asDB age).GetSession env now db id
            = some (db, (some view, none)))
        ↔ now.nanos ≤ (v.CreatedAt.Add age).nanos) := by
  rw [getSession_of_index hstored]
  by_cases h : (v.CreatedAt.Add age).nanos < now.nanos
  · have hb : (v.CreatedAt.Add age).Before now = true := by simp [Time.Before, h]
    simp [hb, h]
  · have hb : ¬ (v.CreatedAt.Add age).Before now = true := by simp [Time.Before, h]
    have h' : now.nanos ≤ (v.CreatedAt.Add age).nanos := not_lt.mp h
    simp [hb, h, h']

/-- C3 (witness): the amended claim for a record created at instant 5 with
`maxSessionAge = 10`, read at the expiry instant 15. -/
theorem C3_expired_iff_strictly_before_witness :
    (⟨some (AList.insert "s1" (some ⟨"aes128", "k", ⟨5⟩⟩) ∅), 10, true⟩ : InMemory).index "s1"
        = some (some ⟨"aes128", "k", ⟨5⟩⟩)
      ∧ ((∃ view, (New InMemory.asDB 10).GetSession (fun _ => 0, ⟨0⟩) ⟨15⟩
              ⟨some (AList.insert "s1" (some ⟨"aes128", "k", ⟨5⟩⟩) ∅), 10, true⟩ "s1"
            = some (⟨some (AList.insert "s1" (some ⟨"aes128", "k", ⟨5⟩⟩) ∅), 10, true⟩,
                (some view, none)))
          ↔ (⟨15⟩ : Time).nanos ≤ ((⟨5⟩ : Time).Add 10).nanos) :=
  ⟨by decide,
    (C3_expired_iff_strictly_before 10
      ⟨some (AList.insert "s1" (some ⟨"aes128", "k", ⟨5⟩⟩) ∅), 10, true⟩
      "s1" ⟨"aes128", "k", ⟨5⟩⟩ ⟨15⟩ (fun _ => 0, ⟨0⟩) (by decide)).2.2⟩

/-- C4: for every engine state and every identifier that is not a key of the store,
`InMemory.ReadSession` returns a nil session with a nil error and `Store.GetSession`
returns `ErrSessionNotFound` with no session. -/
theorem C4_absent_not_found (db : InMemory) (id : String) (hkey : id ∉ db.keys)
    (age : Duration) (env : (Nat → Nat) × Time) (now : Time) :
    db.ReadSession id = (db, (none, none))
      ∧ (New InMemory.asDB age).GetSession env now db id
          = some (db, (none, some Error.ErrSessionNotFound)) := by
  have h : db.index id = none := (index_eq_none_iff db id).mpr hkey
  exact ⟨readSession_of_index_none h, getSession_of_read_nil (Or.inl h) age env now⟩

/-- C4 (witness): an identifier never written, looked up in a store holding another
session. -/
theorem C4_absent_not_found_witness :
    "non_existent_session_id" ∉
        (⟨some (AList.insert "s1" (some ⟨"aes128", "k", ⟨5⟩⟩) ∅), 10, true⟩ : InMemory).keys
      ∧ (⟨some (AList.insert "s1" (some ⟨"aes128", "k", ⟨5⟩⟩) ∅), 10, true⟩ :
            InMemory).ReadSession "non_existent_session_id"
          = (⟨some (AList.insert "s1" (some ⟨"aes128", "k", ⟨5⟩⟩) ∅), 10, true⟩, (none, none))
      ∧ (New InMemory.asDB 10).GetSession (fun _ => 0, ⟨0⟩) ⟨6⟩
            ⟨some (AList.insert "s1" (some ⟨"aes128", "k", ⟨5⟩⟩) ∅), 10, true⟩
            "non_existent_session_id"
          = some (⟨some (AList.insert "s1" (some ⟨"aes128", "k", ⟨5⟩⟩) ∅), 10, true⟩,
              (none, some Error.ErrSessionNotFound)) :=
  ⟨by decide,
    C4_absent_not_found ⟨some (AList.insert "s1" (some ⟨"aes128", "k", ⟨5⟩⟩) ∅), 10, true⟩
      "non_existent_session_id" (by decide) 10 (fun _ => 0, ⟨0⟩) ⟨6⟩⟩

/-- C5: a reaper sweep run at instant `now` removes exactly the entries whose pointer is
not nil and for which `now.Sub(CreatedAt) > maxSessionAge`, and leaves every other
identifier holding the record it held, fields unchanged; consequently a session whose
age at `now` exceeds `maxSessionAge` (engine and `Store` configured with the same
`maxSessionAge`, a `time.Duration`) makes `GetSession` return `ErrSessionExpired` before
the sweep and `ErrSessionNotFound` after it. -/
theorem C5_sweep_removes_exactly_expired (db : InMemory) (now : Time) :
    (∀ id, (db.cleanUpExpiredSessions fun _ => now).index id =
        match db.index id with
        | some (some v) =>
          if now.Sub v.CreatedAt > db.maxSessionAge then none else some (some v)
        | r => r)
      ∧ (∀ id v env later, isDuration db.maxSessionAge → db.index id = some (some v) →
          now.Sub v.CreatedAt > db.maxSessionAge →
          (New InMemory.asDB db.maxSessionAge).GetSession env now db id
              = some (db, (none, some Error.ErrSessionExpired))
            ∧ (New InMemory.asDB db.maxSessionAge).GetSession env later
                (db.cleanUpExpiredSessions fun _ => now) id
              = some (db.cleanUpExpiredSessions fun _ => now,
                  (none, some Error.ErrSessionNotFound))) := by
  have key : ∀ id, (db.cleanUpExpiredSessions fun _ => now).index id =
      match db.index id with
      | some (some v) =>
        if now.Sub v.CreatedAt > db.maxSessionAge then none else some (some v)
      | r => r := by
    intro id
    rw [cleanUpExpiredSessions_index]
    cases h : db.index id with
    | none => rfl
    | some v =>
      cases v with
      | none => simp [sweepCondition]
      | some v => simp [sweepCondition]
  refine ⟨key, ?_⟩
  intro id v env later hdur hstored hold
  constructor
  · rw [getSession_of_index hstored, if_pos (before_of_sub_gt hdur hold)]
  · apply getSession_of_read_nil
    left
    rw [key id, hstored]
    simp only [if_pos hold]

/-- C5 (witness): a store holding `s1` created at instant 5 and `s2` created at instant
12, `maxSessionAge = 10`, swept at instant 16: `s1` goes (expired before, not found
after) and `s2` & its fields stay. -/
theorem C5_sweep_removes_exactly_expired_witness :
    isDuration (10 : Int)
      ∧ (⟨some ((AList.insert "s1" (some ⟨"aes128", "k", ⟨5⟩⟩) ∅).insert "s2"
            (some ⟨"des", "q", ⟨12⟩⟩)), 10, true⟩ : InMemory).index "s1"
          = some (some ⟨"aes128", "k", ⟨5⟩⟩)
      ∧ (⟨16⟩ : Time).Sub ⟨5⟩ > (10 : Int)
      ∧ ((New InMemory.asDB 10).GetSession (fun _ => 0, ⟨0⟩) ⟨16⟩
            ⟨some ((AList.insert "s1" (some ⟨"aes128", "k", ⟨5⟩⟩) ∅).insert "s2"
              (some ⟨"des", "q", ⟨12⟩⟩)), 10, true⟩ "s1"
          = some (⟨some ((AList.insert "s1" (some ⟨"aes128", "k", ⟨5⟩⟩) ∅).insert "s2"
              (some ⟨"des", "q", ⟨12⟩⟩)), 10, true⟩, (none, some Error.ErrSessionExpired))
        ∧ (New InMemory.asDB 10).GetSession (fun _ => 0, ⟨0⟩) ⟨17⟩
            ((⟨some ((AList.insert "s1" (some ⟨"aes128", "k", ⟨5⟩⟩) ∅).insert "s2"
              (some ⟨"des", "q", ⟨12⟩⟩)), 10, true⟩ : InMemory).cleanUpExpiredSessions
                fun _ => ⟨16⟩) "s1"
          = some ((⟨some ((AList.insert "s1" (some ⟨"aes128", "k", ⟨5⟩⟩) ∅).insert "s2"
              (some ⟨"des", "q", ⟨12⟩⟩)), 10, true⟩ : InMemory).cleanUpExpiredSessions
                fun _ => ⟨16⟩, (none, some Error.ErrSessionNotFound))) :=
  ⟨by decide, by decide, by decide,
    (C5_sweep_removes_exactly_expired
      ⟨some ((AList.insert "s1" (some ⟨"aes128", "k", ⟨5⟩⟩) ∅).insert "s2"
        (some ⟨"des", "q", ⟨12⟩⟩)), 10, true⟩ ⟨16⟩).2 "s1" ⟨"aes128", "k", ⟨5⟩⟩
      (fun _ => 0, ⟨0⟩) ⟨17⟩ (by decide) (by decide) (by decide)⟩

/-- C6: a session is created at instant `t0` on an engine whose map is allocated, and
gets the identifier `S`.  After any sequence of clock advances, reaper sweeps, reads and
other `createSession` calls (calls that return an identifier other than `S`), the run
has returned, the clock has not gone back, and `GetSession` on `S` at any instant
`now > t0 + maxSessionAge` returns `ErrSessionNotFound` or `ErrSessionExpired`, never a
view. -/
theorem C6_expired_never_valid_again (age : Duration) (db : InMemory)
    (hlive : db.data ≠ none) (rnd0 : Nat → Nat) (t0 : Time) (algorithm key : String)
    (evs : List system.Event)
    (hother : ∀ rnd a k, system.Event.createSession rnd a k ∈ evs →
      uuid.NewString rnd ≠ uuid.NewString rnd0) :
    ∃ db1 final,
      (New InMemory.asDB age).NewSession (rnd0, t0) db algorithm key
          = some (db1, (uuid.NewString rnd0, none))
      ∧ system.run age ⟨db1, t0⟩ evs = some final
      ∧ t0.nanos ≤ final.now.nanos
      ∧ ∀ now env, (t0.Add age).nanos < now.nanos →
          (New InMemory.asDB age).GetSession env now final.engine (uuid.NewString rnd0)
              = some (final.engine, (none, some Error.ErrSessionNotFound))
            ∨ (New InMemory.asDB age).GetSession env now final.engine (uuid.NewString rnd0)
              = some (final.engine, (none, some Error.ErrSessionExpired)) := by
  obtain ⟨m, hm⟩ := Option.ne_none_iff_exists'.mp hlive
  have hstart : holdsOrGone (uuid.NewString rnd0) ⟨algorithm, key, t0⟩
      ⟨{ db with data := some (m.insert (uuid.NewString rnd0)
          (some { AlgorithmName := algorithm, Key := key, CreatedAt := t0 })) }, t0⟩ := by
    refine ⟨by simp, Or.inr ?_⟩
    simp only [index_after_write, if_pos]
  obtain ⟨final, hrun, ⟨_, hidx⟩, hle⟩ :=
    run_holdsOrGone age (uuid.NewString rnd0) ⟨algorithm, key, t0⟩ evs _ hstart hother
  refine ⟨_, final, newSession_eq hm age rnd0 t0 algorithm key, hrun, hle, ?_⟩
  intro now env hlate
  rcases hidx with h | h
  · exact Or.inl (getSession_of_read_nil (Or.inl h) age env now)
  · right
    rw [getSession_of_index h, if_pos]
    simpa [Time.Before] using hlate

/-- C6 (witness): `maxSessionAge = 10`; the session is created at instant 5; then another
session is created, the clock advances by 20, the session is read, the reaper sweeps,
the clock advances by 3; the read at instant 28 reports not found or expired. -/
theorem C6_expired_never_valid_again_witness :
    (NewInMemory 10).data ≠ none ∧
    ∃ db1 final,
      (New InMemory.asDB 10).NewSession (fun _ => 0, ⟨5⟩) (NewInMemory 10) "aes128" "k"
          = some (db1, (uuid.NewString fun _ => 0, none))
      ∧ system.run 10 ⟨db1, ⟨5⟩⟩
          [system.Event.createSession (fun _ => 1) "des" "q", system.Event.advance 20,
           system.Event.getSession (uuid.NewString fun _ => 0),
           system.Event.sweep 1 (fun _ => 0), system.Event.advance 3] = some final
      ∧ (⟨5⟩ : Time).nanos ≤ final.now.nanos
      ∧ ∀ now env, ((⟨5⟩ : Time).Add 10).nanos < now.nanos →
          (New InMemory.asDB 10).GetSession env now final.engine (uuid.NewString fun _ => 0)
              = some (final.engine, (none, some Error.ErrSessionNotFound))
            ∨ (New InMemory.asDB 10).GetSession env now final.engine (uuid.NewString fun _ => 0)
              = some (final.engine, (none, some Error.ErrSessionExpired)) :=
  ⟨by decide,
    C6_expired_never_valid_again 10 (NewInMemory 10) (by decide) (fun _ => 0) ⟨5⟩ "aes128" "k"
      [system.Event.createSession (fun _ => 1) "des" "q", system.Event.advance 20,
       system.Event.getSession (uuid.NewString fun _ => 0),
       system.Event.sweep 1 (fun _ => 0), system.Event.advance 3]
      (by
        intro rnd a k h
        simp only [List.mem_cons, system.Event.createSession.injEq, List.mem_singleton,
          reduceCtorEq, or_false, List.not_mem_nil] at h
        rw [h.1]
        decide)⟩

/-- C7: for every implementation of the `DB` interface, every state of it and every
environment.  (1) When `WriteSession` returns, `NewSession` returns: its error is
`ErrDatabaseError` exactly when the backend's error is not nil, in which case the
identifier is empty, and otherwise it returns the backend's identifier with a nil error.
(2) When `ReadSession` returns, `GetSession` returns: its error is `ErrDatabaseError`
exactly when the backend's error is not nil, and its result is a session with a nil
error, or no session with one of `ErrDatabaseError`, `ErrSessionNotFound`,
`ErrSessionExpired`; never no session with a nil error. -/
theorem C7_backend_faults_surface {σ ε : Type} (s : Store σ ε) (env : ε) (st : σ) :
    (∀ algorithm key st' id err,
        s.db.WriteSession env st algorithm key = some (st', (id, err)) →
        ∃ id' err', s.NewSession env st algorithm key = some (st', (id', err'))
          ∧ (err' = some Error.ErrDatabaseError ↔ err ≠ none)
          ∧ (err ≠ none → id' = "")
          ∧ (err = none → id' = id ∧ err' = none))
      ∧ (∀ now id st' session err,
        s.db.ReadSession env st id = some (st', (session, err)) →
        ∃ view err', s.GetSession env now st id = some (st', (view, err'))
          ∧ (err' = some Error.ErrDatabaseError ↔ err ≠ none)
          ∧ ((view ≠ none ∧ err' = none)
              ∨ (view = none ∧ err' = some Error.ErrDatabaseError)
              ∨ (view = none ∧ err' = some Error.ErrSessionNotFound)
              ∨ (view = none ∧ err' = some Error.ErrSessionExpired))
          ∧ ¬ (view = none ∧ err' = none)) := by
  constructor
  · intro algorithm key st' id err h
    cases err with
    | none => exact ⟨id, none, by simp [Store.NewSession, h], by simp, by simp, by simp⟩
    | some e =>
      exact ⟨"", some Error.ErrDatabaseError, by simp [Store.NewSession, h],
        by simp, by simp, by simp⟩
  · intro now id st' session err h
    cases err with
    | some e =>
      exact ⟨none, some Error.ErrDatabaseError, by simp [Store.GetSession, h],
        by simp, by simp, by simp⟩
    | none =>
      cases session with
      | none =>
        exact ⟨none, some Error.ErrSessionNotFound, by simp [Store.GetSession, h],
          by simp, by simp, by simp⟩
      | some v =>
        by_cases hb : (v.CreatedAt.Add s.maxSessionAge).Before now = true
        · exact ⟨none, some Error.ErrSessionExpired, by simp [Store.GetSession, h, hb],
            by simp, by simp, by simp⟩
        · exact ⟨some ⟨v.AlgorithmName, v.Key, v.CreatedAt.Add s.maxSessionAge⟩, none,
            by simp [Store.GetSession, h, hb], by simp, by simp, by simp⟩

/-- C7 (witness): a `Store` over a backend whose calls all fail; both operations report
`ErrDatabaseError`. -/
theorem C7_backend_faults_surface_witness :
    (unreachableDB.WriteSession () () "aes128" "k"
        = some ((), ("", some (Error.other "connection refused")))
      ∧ ∃ id' err', (New unreachableDB 10).NewSession () () "aes128" "k"
            = some ((), (id', err'))
          ∧ (err' = some Error.ErrDatabaseError ↔ some (Error.other "connection refused") ≠ none)
          ∧ (some (Error.other "connection refused") ≠ none → id' = "")
          ∧ (some (Error.other "connection refused") = none → id' = "" ∧ err' = none))
      ∧ (unreachableDB.ReadSession () () "s1"
          = some ((), (none, some (Error.other "connection refused")))
        ∧ ∃ view err', (New unreachableDB 10).GetSession () ⟨7⟩ () "s1"
            = some ((), (view, err'))
          ∧ (err' = some Error.ErrDatabaseError ↔ some (Error.other "connection refused") ≠ none)
          ∧ ((view ≠ none ∧ err' = none)
              ∨ (view = none ∧ err' = some Error.ErrDatabaseError)
              ∨ (view = none ∧ err' = some Error.ErrSessionNotFound)
              ∨ (view = none ∧ err' = some Error.ErrSessionExpired))
          ∧ ¬ (view = none ∧ err' = none)) :=
  ⟨⟨rfl, (C7_backend_faults_surface (New unreachableDB 10) () ()).1 "aes128" "k" () ""
      (some (Error.other "connection refused")) rfl⟩,
   ⟨rfl, (C7_backend_faults_surface (New unreachableDB 10) () ()).2 ⟨7⟩ "s1" () none
      (some (Error.other "connection refused")) rfl⟩⟩

/-- C8: the read path changes nothing.  For every engine state, identifier and instant,
the state after `InMemory.ReadSession` is the state before it, and `Store.GetSession`
returns with the state it was given, whatever it reports; in particular, when it reports
`ErrSessionExpired` for a stored record, the record is still stored afterwards. -/
theorem C8_read_path_pure (db : InMemory) (id : String) (age : Duration)
    (env : (Nat → Nat) × Time) (now : Time) :
    (db.ReadSession id).1 = db
      ∧ (∃ r, (New InMemory.asDB age).GetSession env now db id = some (db, r))
      ∧ (∀ db' r, (New InMemory.asDB age).GetSession env now db id = some (db', r) →
          db'.keys = db.keys ∧ ∀ k, db'.index k = db.index k)
      ∧ (∀ v, db.index id = some (some v) → (v.CreatedAt.Add age).Before now = true →
          ∃ db', (New InMemory.asDB age).GetSession env now db id
              = some (db', (none, some Error.ErrSessionExpired))
            ∧ db'.index id = some (some v)) := by
  refine ⟨readSession_fst db id, getSession_state age env now db id, ?_, ?_⟩
  · intro db' r h
    obtain ⟨r0, hr0⟩ := getSession_state age env now db id
    rw [hr0] at h
    have : db = db' := congrArg Prod.fst (Option.some.inj h)
    subst this
    exact ⟨rfl, fun _ => rfl⟩
  · intro v hstored hpast
    exact ⟨db, by rw [getSession_of_index hstored, if_pos hpast], hstored⟩

/-- C8 (witness): reading, at instant 16, a session written at instant 5 with
`maxSessionAge = 10` reports expiry and leaves the record where it was. -/
theorem C8_read_path_pure_witness :
    (⟨some (AList.insert "s1" (some ⟨"aes128", "k", ⟨5⟩⟩) ∅), 10, true⟩ : InMemory).index "s1"
        = some (some ⟨"aes128", "k", ⟨5⟩⟩)
      ∧ ((⟨5⟩ : Time).Add 10).Before ⟨16⟩ = true
      ∧ ∃ db', (New InMemory.asDB 10).GetSession (fun _ => 0, ⟨0⟩) ⟨16⟩
            ⟨some (AList.insert "s1" (some ⟨"aes128", "k", ⟨5⟩⟩) ∅), 10, true⟩ "s1"
          = some (db', (none, some Error.ErrSessionExpired))
        ∧ db'.index "s1" = some (some ⟨"aes128", "k", ⟨5⟩⟩) :=
  ⟨by decide, by decide,
    (C8_read_path_pure ⟨some (AList.insert "s1" (some ⟨"aes128", "k", ⟨5⟩⟩) ∅), 10, true⟩
      "s1" 10 (fun _ => 0, ⟨0⟩) ⟨16⟩).2.2.2 ⟨"aes128", "k", ⟨5⟩⟩ (by decide) (by decide)⟩

/-- C9: on an engine whose map is allocated, for every algorithm name, key, random draw
and instant `now`: `WriteSession` returns a nil error and the generated identifier,
which is not empty (it has thirty-six characters); `ReadSession` of that identifier on
the state the write left returns, with a nil error, the record with that algorithm name
and key and `CreatedAt = now`; and it still does after the clock has advanced by any
amounts `ds`, the storage read taking no account of time. -/
theorem C9_write_then_read (db : InMemory) (hlive : db.data ≠ none) (rnd : Nat → Nat)
    (now : Time) (algorithm key : String) (age : Duration) (ds : List Nat) :
    ∃ db', db.WriteSession rnd now algorithm key = some (db', (uuid.NewString rnd, none))
      ∧ uuid.NewString rnd ≠ ""
      ∧ (uuid.NewString rnd).length = 36
      ∧ db'.ReadSession (uuid.NewString rnd) = (db', (some ⟨algorithm, key, now⟩, none))
      ∧ ∃ final, system.run age ⟨db', now⟩ (ds.map system.Event.advance) = some final
          ∧ final.now = now.Add (ds.sum : Nat)
          ∧ final.engine.ReadSession (uuid.NewString rnd)
              = (final.engine, (some ⟨algorithm, key, now⟩, none)) := by
  obtain ⟨m, hm⟩ := Option.ne_none_iff_exists'.mp hlive
  have hread : InMemory.ReadSession { db with
        data := some (m.insert (uuid.NewString rnd)
          (some { AlgorithmName := algorithm, Key := key, CreatedAt := now })) }
      (uuid.NewString rnd) = (_, (some ⟨algorithm, key, now⟩, none)) :=
    readSession_of_index (by simp only [index_after_write, if_pos])
  exact ⟨_, writeSession_eq hm rnd now algorithm key, newString_ne_empty rnd,
    newString_length rnd, hread, _, run_advance age ds _, rfl, hread⟩

/-- C9 (witness): a write at instant 5 on a fresh engine, read back at once and after the
clock has advanced by an hour and then a day. -/
theorem C9_write_then_read_witness :
    (NewInMemory (10 * Minute)).data ≠ none ∧
    ∃ db', (NewInMemory (10 * Minute)).WriteSession (fun i => i) ⟨5⟩ "AES" "secret_key"
          = some (db', (uuid.NewString fun i => i, none))
      ∧ (uuid.NewString fun i => i) ≠ ""
      ∧ (uuid.NewString fun i => i).length = 36
      ∧ db'.ReadSession (uuid.NewString fun i => i)
          = (db', (some ⟨"AES", "secret_key", ⟨5⟩⟩, none))
      ∧ ∃ final, system.run (10 * Minute) ⟨db', ⟨5⟩⟩
            ([3600000000000, 86400000000000].map system.Event.advance) = some final
          ∧ final.now = (⟨5⟩ : Time).Add (([3600000000000, 86400000000000] : List Nat).sum : Nat)
          ∧ final.engine.ReadSession (uuid.NewString fun i => i)
              = (final.engine, (some ⟨"AES", "secret_key", ⟨5⟩⟩, none)) :=
  ⟨by decide,
    C9_write_then_read (NewInMemory (10 * Minute)) (by decide) (fun i => i) ⟨5⟩ "AES"
      "secret_key" (10 * Minute) [3600000000000, 86400000000000]⟩

/-- C10: stored sessions are immutable once written.  (1) On an engine whose map is
allocated, a write whose generated identifier is not yet a key returns, adds exactly
that identifier to the keys, stores the new record under it, and leaves every existing
key holding the record it held.  (2) Across such a write, across a read, and across a
sweep (whatever the clock shows at each entry), an identifier that holds a record before
and after the operation holds the same record: same algorithm name, key and
`CreatedAt`. -/
theorem C10_sessions_immutable (db : InMemory) (rnd : Nat → Nat) (now : Time)
    (algorithm key : String) (id : String) (clock : String → Time) :
    (db.data ≠ none → uuid.NewString rnd ∉ db.keys →
      ∃ db', db.WriteSession rnd now algorithm key = some (db', (uuid.NewString rnd, none))
        ∧ db'.keys = uuid.NewString rnd :: db.keys
        ∧ db'.index (uuid.NewString rnd) = some (some ⟨algorithm, key, now⟩)
        ∧ (∀ k ∈ db.keys, db'.index k = db.index k)
        ∧ (∀ k r r', db.index k = some r → db'.index k = some r' → r' = r))
      ∧ (∀ k r r', db.index k = some r → (db.ReadSession id).1.index k = some r' → r' = r)
      ∧ (∀ k r r', db.index k = some r →
          (db.cleanUpExpiredSessions clock).index k = some r' → r' = r) := by
  refine ⟨?_, ?_, ?_⟩
  · intro hlive hfresh
    obtain ⟨m, hm⟩ := Option.ne_none_iff_exists'.mp hlive
    have hnone : db.index (uuid.NewString rnd) = none := (index_eq_none_iff db _).mpr hfresh
    have hother : ∀ k, k ≠ uuid.NewString rnd →
        InMemory.index { db with data := some (m.insert (uuid.NewString rnd)
          (some { AlgorithmName := algorithm, Key := key, CreatedAt := now })) } k
          = db.index k := by
      intro k hk
      rw [index_after_write, if_neg hk, index_of_data hm]
    refine ⟨_, writeSession_eq hm rnd now algorithm key,
      keys_after_write db m hm _ _ hfresh, by simp only [index_after_write, if_pos], ?_, ?_⟩
    · intro k hk
      exact hother k (fun h => hfresh (h ▸ hk))
    · intro k r r' hr hr'
      have hk : k ≠ uuid.NewString rnd := by
        intro h
        rw [h, hnone] at hr
        exact Option.noConfusion hr
      rw [hother k hk, hr] at hr'
      exact (Option.some.inj hr').symm
  · intro k r r' hr hr'
    rw [readSession_fst, hr] at hr'
    exact (Option.some.inj hr').symm
  · intro k r r' hr hr'
    rw [cleanUpExpiredSessions_index, hr] at hr'
    by_cases hc : sweepCondition db.maxSessionAge (clock k) r = true
    · simp only [if_pos hc] at hr'
      exact Option.noConfusion hr'
    · simp only [if_neg hc] at hr'
      exact (Option.some.inj hr').symm

/-- C10 (witness): a store holding `s1`; a write with a fresh identifier keeps `s1` as it
was, and a sweep at instant 14 (`maxSessionAge = 10`, `s1` created at 5) keeps it too. -/
theorem C10_sessions_immutable_witness :
    ((⟨some (AList.insert "s1" (some ⟨"aes128", "k", ⟨5⟩⟩) ∅), 10, true⟩ : InMemory).data ≠ none
      ∧ (uuid.NewString fun _ => 0) ∉
          (⟨some (AList.insert "s1" (some ⟨"aes128", "k", ⟨5⟩⟩) ∅), 10, true⟩ : InMemory).keys
      ∧ ∃ db', (⟨some (AList.insert "s1" (some ⟨"aes128", "k", ⟨5⟩⟩) ∅), 10, true⟩ :
            InMemory).WriteSession (fun _ => 0) ⟨7⟩ "des" "q"
          = some (db', (uuid.NewString fun _ => 0, none))
        ∧ db'.keys = (uuid.NewString fun _ => 0) ::
            (⟨some (AList.insert "s1" (some ⟨"aes128", "k", ⟨5⟩⟩) ∅), 10, true⟩ : InMemory).keys
        ∧ db'.index (uuid.NewString fun _ => 0) = some (some ⟨"des", "q", ⟨7⟩⟩)
        ∧ (∀ k ∈ (⟨some (AList.insert "s1" (some ⟨"aes128", "k", ⟨5⟩⟩) ∅), 10, true⟩ :
              InMemory).keys,
            db'.index k = (⟨some (AList.insert "s1" (some ⟨"aes128", "k", ⟨5⟩⟩) ∅), 10, true⟩ :
              InMemory).index k)
        ∧ (∀ k r r',
            (⟨some (AList.insert "s1" (some ⟨"aes128", "k", ⟨5⟩⟩) ∅), 10, true⟩ :
              InMemory).index k = some r → db'.index k = some r' → r' = r))
      ∧ ((⟨some (AList.insert "s1" (some ⟨"aes128", "k", ⟨5⟩⟩) ∅), 10, true⟩ : InMemory).index
            "s1" = some (some ⟨"aes128", "k", ⟨5⟩⟩)
        ∧ ((⟨some (AList.insert "s1" (some ⟨"aes128", "k", ⟨5⟩⟩) ∅), 10, true⟩ :
            InMemory).cleanUpExpiredSessions fun _ => ⟨14⟩).index "s1"
            = some (some ⟨"aes128", "k", ⟨5⟩⟩)
        ∧ (some ⟨"aes128", "k", ⟨5⟩⟩ : Option datastore.Session) = some ⟨"aes128", "k", ⟨5⟩⟩) :=
  ⟨⟨by decide, by decide,
      (C10_sessions_immutable ⟨some (AList.insert "s1" (some ⟨"aes128", "k", ⟨5⟩⟩) ∅), 10, true⟩
        (fun _ => 0) ⟨7⟩ "des" "q" "s1" (fun _ => ⟨14⟩)).1 (by decide) (by decide)⟩,
    by decide, by decide,
    (C10_sessions_immutable ⟨some (AList.insert "s1" (some ⟨"aes128", "k", ⟨5⟩⟩) ∅), 10, true⟩
      (fun _ => 0) ⟨7⟩ "des" "q" "s1" (fun _ => ⟨14⟩)).2.2 "s1" _ _ (by decide) (by decide)⟩


/-- What holds of concurrent creates when the random source never repeats.  The calls of
any number of concurrent callers reach the engine one at a time (the mutex), in some
order, between clock advances, reads and reaper sweeps: a sequence of events `evs`.  On
an engine whose map is allocated and which sweeps with the `Store`'s `maxSessionAge` (a
`time.Duration`), if the UUIDs drawn by the `createSession` calls are pairwise
different, then: the run returns; the identifiers handed out are pairwise different; and
each session, created at the instant `mid.now` of its call, is returned by `GetSession`
on its own identifier with its own algorithm name and key at every instant `now` after
the run that is not past `mid.now + maxSessionAge`. -/
theorem creates_retrievable_of_distinct_draws (age : Duration) (hdur : isDuration age)
    (s0 : system.State) (hlive : s0.engine.data ≠ none)
    (hage : s0.engine.maxSessionAge = age) (evs : List system.Event)
    (hdrawn : (system.drawn evs).Nodup) :
    ∃ final, system.run age s0 evs = some final
      ∧ ((system.drawn evs).map uuid.UUID.String).Nodup
      ∧ ∀ pre rnd a k post, evs = pre ++ system.Event.createSession rnd a k :: post →
          ∃ mid, system.run age s0 pre = some mid
            ∧ ∀ now env, final.now.nanos ≤ now.nanos →
                now.nanos ≤ (mid.now.Add age).nanos →
                (New InMemory.asDB age).GetSession env now final.engine (uuid.NewString rnd)
                  = some (final.engine, (some ⟨a, k, mid.now.Add age⟩, none)) := by
  obtain ⟨final, hrun, _, _, _⟩ := run_total age evs s0 hlive
  refine ⟨final, hrun, ?_, ?_⟩
  · refine List.Nodup.map_on ?_ hdrawn
    intro u hu w hw huw
    obtain ⟨r1, rfl⟩ := exists_of_mem_drawn hu
    obtain ⟨r2, rfl⟩ := exists_of_mem_drawn hw
    exact newString_injective huw
  · intro pre rnd a k post hevs
    obtain ⟨mid, hpre, hmidlive, hmidage, _⟩ := run_total age pre s0 hlive
    obtain ⟨m, hm⟩ := Option.ne_none_iff_exists'.mp hmidlive
    refine ⟨mid, hpre, ?_⟩
    -- the state right after the call
    have hstart : holdsOrLate age (uuid.NewString rnd) ⟨a, k, mid.now⟩
        { mid with engine := { mid.engine with
            data := some (m.insert (uuid.NewString rnd)
              (some { AlgorithmName := a, Key := k, CreatedAt := mid.now })) } } := by
      refine ⟨by simp, hmidage.trans hage, Or.inl ?_⟩
      simp only [index_after_write, if_pos]
    -- no later call draws the same identifier
    have hfresh : ∀ rnd' a' k', system.Event.createSession rnd' a' k' ∈ post →
        uuid.NewString rnd' ≠ uuid.NewString rnd := by
      intro rnd' a' k' hmem heq
      have hd := hdrawn
      rw [hevs, drawn_append] at hd
      simp only [system.drawn] at hd
      have hnot := (List.nodup_cons.mp (List.nodup_append.mp hd).2.1).1
      exact hnot (newString_injective heq ▸ mem_drawn_of_mem hmem)
    obtain ⟨final', hpost, _, _, hidx⟩ :=
      run_holdsOrLate age hdur (uuid.NewString rnd) ⟨a, k, mid.now⟩ post _ hstart hfresh
    have hfinal : final' = final := by
      have h1 : system.run age s0 evs = some final' := by
        rw [hevs, run_append, hpre]
        simp only [Option.bind, system.run, system.step, newSession_eq hm]
        exact hpost
      rw [hrun] at h1
      exact (Option.some.inj h1).symm
    subst hfinal
    intro now env hafter hbefore
    rcases hidx with h | h
    · rw [getSession_of_index h, if_neg]
      simp only [Time.Before, decide_eq_true_eq, not_lt]
      exact hbefore
    · exact absurd (lt_of_lt_of_le h hafter) (not_lt.mpr hbefore)

/-- Three callers create sessions at instant 5 with three different draws, then the
clock advances by 3 and the reaper sweeps (`maxSessionAge = 10`): the identifiers differ
and every session is read back up to its expiry instant. -/
theorem creates_retrievable_of_distinct_draws_example :
    isDuration (10 : Int)
      ∧ (⟨NewInMemory 10, ⟨5⟩⟩ : system.State).engine.data ≠ none
      ∧ (⟨NewInMemory 10, ⟨5⟩⟩ : system.State).engine.maxSessionAge = 10
      ∧ (system.drawn
          [system.Event.createSession (fun _ => 1) "aes128" "k1",
           system.Event.createSession (fun _ => 2) "des" "k2",
           system.Event.createSession (fun _ => 3) "aes256" "k3",
           system.Event.advance 3, system.Event.sweep 1 (fun _ => 0)]).Nodup
      ∧ ∃ final, system.run 10 ⟨NewInMemory 10, ⟨5⟩⟩
            [system.Event.createSession (fun _ => 1) "aes128" "k1",
             system.Event.createSession (fun _ => 2) "des" "k2",
             system.Event.createSession (fun _ => 3) "aes256" "k3",
             system.Event.advance 3, system.Event.sweep 1 (fun _ => 0)] = some final
          ∧ ((system.drawn
              [system.Event.createSession (fun _ => 1) "aes128" "k1",
               system.Event.createSession (fun _ => 2) "des" "k2",
               system.Event.createSession (fun _ => 3) "aes256" "k3",
               system.Event.advance 3, system.Event.sweep 1 (fun _ => 0)]).map
                uuid.UUID.String).Nodup
          ∧ ∀ pre rnd a k post,
              [system.Event.createSession (fun _ => 1) "aes128" "k1",
               system.Event.createSession (fun _ => 2) "des" "k2",
               system.Event.createSession (fun _ => 3) "aes256" "k3",
               system.Event.advance 3, system.Event.sweep 1 (fun _ => 0)]
                = pre ++ system.Event.createSession rnd a k :: post →
              ∃ mid, system.run 10 ⟨NewInMemory 10, ⟨5⟩⟩ pre = some mid
                ∧ ∀ now env, final.now.nanos ≤ now.nanos →
                    now.nanos ≤ (mid.now.Add 10).nanos →
                    (New InMemory.asDB 10).GetSession env now final.engine
                        (uuid.NewString rnd)
                      = some (final.engine, (some ⟨a, k, mid.now.Add 10⟩, none)) :=
  ⟨by decide, by decide, rfl, by decide,
    creates_retrievable_of_distinct_draws 10 (by decide) ⟨NewInMemory 10, ⟨5⟩⟩
      (by decide) rfl _ (by decide)⟩


/-- C11 (failing input): two `createSession` calls on a fresh engine for which the
random source delivers the same sixteen bytes (all zero), both at instant 5 with
`maxSessionAge = 10`.  `WriteSession` stores under `uuid.NewString()` without looking
whether the key is new: both calls return the identifier
`00000000-0000-4000-8000-000000000000` with a nil error, the map holds that one key, and
`GetSession` on it returns the second caller's algorithm name and key; the first
caller's session is gone. -/
theorem C11_same_draw_same_identifier :
    (((New InMemory.asDB 10).NewSession (fun _ => 0, ⟨5⟩) (NewInMemory 10) "aes128" "k1").bind
        fun first =>
          ((New InMemory.asDB 10).NewSession (fun _ => 0, ⟨5⟩) first.1 "des" "k2").bind
            fun second =>
              ((New InMemory.asDB 10).GetSession (fun _ => 0, ⟨5⟩) ⟨5⟩ second.1 first.2.1).map
                fun read => (first.2, second.2, second.1.keys, read.2))
      = some (("00000000-0000-4000-8000-000000000000", none),
              ("00000000-0000-4000-8000-000000000000", none),
              ["00000000-0000-4000-8000-000000000000"],
              (some ⟨"des", "k2", ⟨15⟩⟩, none)) := by
  rfl

/-- C12: `Decrypt` undoes `Encrypt`.  For every block cipher behind `crypto/aes` and
`crypto/des`, every supported algorithm with a key of the size it requires, every
plaintext and every random stream the IV is read from: `Encrypt` returns a ciphertext
with a nil error; the ciphertext is standard base64 (`isBase64`); and `Decrypt` with the
same algorithm and key on that ciphertext returns exactly the plaintext with a nil
error. -/
theorem C12_decrypt_undoes_encrypt (P : BlockCiphers) (rnd : Nat → Byte)
    (algo : encryption.Algorithm) (key plaintext : List Byte)
    (hkey : (algo = encryption.AES128 ∧ key.length = 16)
      ∨ (algo = encryption.AES192 ∧ key.length = 24)
      ∨ (algo = encryption.AES256 ∧ key.length = 32)
      ∨ (algo = encryption.DES ∧ key.length = 8)) :
    ∃ cipherText,
      encryption.Encrypt P (some rnd) algo key plaintext = some (.ok cipherText)
        ∧ encryption.isBase64 cipherText = true
        ∧ encryption.Decrypt P algo key cipherText = some (.ok plaintext) := by
  obtain ⟨block, hsel, _⟩ := selectCipher_of_valid P algo key hkey
  obtain ⟨iv, hiv, hivlen⟩ := readFull_some rnd block.BlockSize
  have hstream : (cipher.cfbEncryptLoop block plaintext.length iv plaintext).length
      = plaintext.length := cfbEncryptLoop_length block _ _ _ (le_refl _)
  refine ⟨base64.EncodeToString (iv ++ cipher.cfbEncryptLoop block plaintext.length iv
    plaintext), ?_, ?_, ?_⟩
  · simp only [encryption.Encrypt, hsel, hiv, cipher.CFBEncrypt, hivlen, if_true]
  · simp only [encryption.isBase64, decodeString_encodeToString, Option.isSome_some]
  · have hnot : ¬ (iv ++ cipher.cfbEncryptLoop block plaintext.length iv plaintext).length
        < block.BlockSize := by
      simp only [List.length_append, hivlen]
      omega
    simp only [encryption.Decrypt, hsel, decodeString_encodeToString, if_neg hnot,
      cipher.CFBDecrypt, List.take_left' hivlen, List.drop_left' hivlen, hivlen, if_true]
    rw [cfbDecryptLoop_cfbEncryptLoop block _ _ _ _ (le_refl _) (by rw [hstream])]

/-- C12 (witness): the first case of `TestEncryptDecrypt`, over the stand-in ciphers. -/
theorem C12_decrypt_undoes_encrypt_witness :
    ((encryption.AES128 = encryption.AES128
          ∧ (bytesOfString "0123456789abcdef").length = 16)
        ∨ (encryption.AES128 = encryption.AES192
          ∧ (bytesOfString "0123456789abcdef").length = 24)
        ∨ (encryption.AES128 = encryption.AES256
          ∧ (bytesOfString "0123456789abcdef").length = 32)
        ∨ (encryption.AES128 = encryption.DES
          ∧ (bytesOfString "0123456789abcdef").length = 8))
      ∧ ∃ cipherText,
        encryption.Encrypt encryption.toyCiphers (some fun i => Fin.ofNat (7 * i))
            encryption.AES128 (bytesOfString "0123456789abcdef")
            (bytesOfString "I'll be back") = some (.ok cipherText)
          ∧ encryption.isBase64 cipherText = true
          ∧ encryption.Decrypt encryption.toyCiphers encryption.AES128
              (bytesOfString "0123456789abcdef") cipherText
            = some (.ok (bytesOfString "I'll be back")) :=
  ⟨Or.inl ⟨rfl, by decide⟩,
    C12_decrypt_undoes_encrypt encryption.toyCiphers (fun i => Fin.ofNat (7 * i))
      encryption.AES128 (bytesOfString "0123456789abcdef") (bytesOfString "I'll be back")
      (Or.inl ⟨rfl, by decide⟩)⟩

/-- C13: `ValidateAlgoKeyPair` returns true exactly when the algorithm and the length of
the key in bytes are one of (aes128, 16), (aes192, 24), (aes256, 32), (des, 8); for an
algorithm value outside these four it returns false whatever the key. -/
theorem C13_validateAlgoKeyPair_iff (algo : encryption.Algorithm) (key : List Byte) :
    (encryption.ValidateAlgoKeyPair algo key = true ↔
        (algo = "aes128" ∧ key.length = 16) ∨ (algo = "aes192" ∧ key.length = 24)
          ∨ (algo = "aes256" ∧ key.length = 32) ∨ (algo = "des" ∧ key.length = 8))
      ∧ (algo ≠ "aes128" → algo ≠ "aes192" → algo ≠ "aes256" → algo ≠ "des" →
          encryption.ValidateAlgoKeyPair algo key = false) := by
  have d1 : ("aes128" : String) ≠ "aes192" := by decide
  have d2 : ("aes128" : String) ≠ "aes256" := by decide
  have d3 : ("aes128" : String) ≠ "des" := by decide
  have d4 : ("aes192" : String) ≠ "aes256" := by decide
  have d5 : ("aes192" : String) ≠ "des" := by decide
  have d6 : ("aes256" : String) ≠ "des" := by decide
  unfold encryption.ValidateAlgoKeyPair encryption.AES128 encryption.AES192
    encryption.AES256 encryption.DES
  constructor
  · by_cases h1 : algo = "aes128"
    · subst h1; simp [d1, d2, d3]
    · by_cases h2 : algo = "aes192"
      · subst h2; simp [d1.symm, d4, d5]
      · by_cases h3 : algo = "aes256"
        · subst h3; simp [d2.symm, d4.symm, d6]
        · by_cases h4 : algo = "des"
          · subst h4; simp [d3.symm, d5.symm, d6.symm]
          · simp [h1, h2, h3, h4]
  · intro h1 h2 h3 h4
    simp [h1, h2, h3, h4]

/-- C13 (witness): an algorithm value outside the four, with a key of sixteen bytes. -/
theorem C13_validateAlgoKeyPair_iff_witness :
    ("rc4" : String) ≠ "aes128" ∧ ("rc4" : String) ≠ "aes192" ∧ ("rc4" : String) ≠ "aes256"
      ∧ ("rc4" : String) ≠ "des"
      ∧ encryption.ValidateAlgoKeyPair "rc4" (bytesOfString "0123456789abcdef") = false :=
  ⟨by decide, by decide, by decide, by decide,
    (C13_validateAlgoKeyPair_iff "rc4" (bytesOfString "0123456789abcdef")).2
      (by decide) (by decide) (by decide) (by decide)⟩


/-- C14: on an engine whose housekeeping goroutine is in its loop, `Close` returns and
leaves the goroutine stopped and the map nil, so no key is left.  After it, every
sequence of poll-timer ticks and reads returns (no panic), runs no sweep and leaves the
engine as `Close` left it; and `ReadSession` of every identifier, those written before
`Close` included, returns a nil session with a nil error.  (Before `Close`, a tick does
run a sweep.) -/
theorem C14_close_stops_reaper_and_releases (db : InMemory)
    (hreaper : db.reaperRunning = true) (evs : List engine.Event)
    (hevs : ∀ e ∈ evs, (∃ clock, e = engine.Event.tick clock)
      ∨ (∃ id, e = engine.Event.read id)) :
    ∃ closed, db.Close = some closed
      ∧ closed.reaperRunning = false ∧ closed.data = none ∧ closed.keys = []
      ∧ engine.run closed evs = some (closed, 0)
      ∧ (∀ id, closed.ReadSession id = (closed, (none, none)))
      ∧ ∀ clock, engine.run db [engine.Event.tick clock]
          = some (db.cleanUpExpiredSessions clock, 1) := by
  have hclose : db.Close = some { db with reaperRunning := false, data := none } := by
    simp [InMemory.Close, hreaper, InMemory.sessionCleanUpFunc]
  have hread : ∀ id, InMemory.ReadSession
      { db with reaperRunning := false, data := none } id
        = ({ db with reaperRunning := false, data := none }, (none, none)) :=
    fun id => readSession_of_index_none rfl
  refine ⟨_, hclose, rfl, rfl, rfl, ?_, hread, ?_⟩
  swap
  · intro clock
    simp [engine.run, engine.step, hreaper, InMemory.sessionCleanUpFunc]
  induction evs with
  | nil => rfl
  | cons e es ih =>
    have htail := ih fun e' he' => hevs e' (List.mem_cons_of_mem _ he')
    rcases hevs e (List.mem_cons_self _ _) with ⟨clock, rfl⟩ | ⟨id, rfl⟩
    · simp only [engine.run, engine.step, Bool.false_eq_true, if_false, htail,
        Option.map_some', Nat.add_zero]
    · simp only [engine.run, engine.step, hread, htail, Option.map_some', Bool.false_eq_true,
        if_false, Nat.add_zero]

/-- C14 (witness): an engine holding `s1` is closed; then the timer ticks, `s1` is read,
and the timer ticks again. -/
theorem C14_close_stops_reaper_and_releases_witness :
    (⟨some (AList.insert "s1" (some ⟨"aes128", "k", ⟨5⟩⟩) ∅), 10, true⟩ :
        InMemory).reaperRunning = true
      ∧ ∃ closed, (⟨some (AList.insert "s1" (some ⟨"aes128", "k", ⟨5⟩⟩) ∅), 10, true⟩ :
            InMemory).Close = some closed
        ∧ closed.reaperRunning = false ∧ closed.data = none ∧ closed.keys = []
        ∧ engine.run closed
            [engine.Event.tick (fun _ => ⟨100⟩), engine.Event.read "s1",
             engine.Event.tick (fun _ => ⟨200⟩)] = some (closed, 0)
        ∧ (∀ id, closed.ReadSession id = (closed, (none, none)))
        ∧ ∀ clock, engine.run
              (⟨some (AList.insert "s1" (some ⟨"aes128", "k", ⟨5⟩⟩) ∅), 10, true⟩ : InMemory)
              [engine.Event.tick clock]
            = some ((⟨some (AList.insert "s1" (some ⟨"aes128", "k", ⟨5⟩⟩) ∅), 10, true⟩ :
                InMemory).cleanUpExpiredSessions clock, 1) :=
  ⟨rfl,
    C14_close_stops_reaper_and_releases
      ⟨some (AList.insert "s1" (some ⟨"aes128", "k", ⟨5⟩⟩) ∅), 10, true⟩ rfl
      [engine.Event.tick (fun _ => ⟨100⟩), engine.Event.read "s1",
       engine.Event.tick (fun _ => ⟨200⟩)]
      (by
        intro e he
        simp only [List.mem_cons, List.mem_singleton, List.not_mem_nil, or_false] at he
        rcases he with rfl | rfl | rfl
        · exact Or.inl ⟨_, rfl⟩
        · exact Or.inr ⟨_, rfl⟩
        · exact Or.inl ⟨_, rfl⟩)⟩


/-- C15: for every block cipher behind the standard library, every supported algorithm
with a key of the size it requires and every input string, with `blockSize` 8 for DES
and 16 for the AES algorithms: `Decrypt` fails with `ErrBase64DecodeError` exactly when
the input is not standard base64; it fails with `ErrInvalidCipherTextBlockSize` exactly
when the input is base64 that decodes to fewer than `blockSize` bytes; and otherwise it
returns, with a nil error, a plaintext of as many bytes as were decoded less
`blockSize`. -/
theorem C15_decrypt_outcome_by_input (P : BlockCiphers) (algo : encryption.Algorithm)
    (key input : List Byte)
    (hkey : (algo = encryption.AES128 ∧ key.length = 16)
      ∨ (algo = encryption.AES192 ∧ key.length = 24)
      ∨ (algo = encryption.AES256 ∧ key.length = 32)
      ∨ (algo = encryption.DES ∧ key.length = 8)) :
    (encryption.Decrypt P algo key input = some (.error encryption.Error.ErrBase64DecodeError)
        ↔ encryption.isBase64 input = false)
      ∧ (encryption.Decrypt P algo key input
            = some (.error encryption.Error.ErrInvalidCipherTextBlockSize)
        ↔ ∃ decoded, base64.DecodeString input = some decoded
            ∧ decoded.length < (if algo = encryption.DES then 8 else 16))
      ∧ (∀ decoded, base64.DecodeString input = some decoded →
          (if algo = encryption.DES then 8 else 16) ≤ decoded.length →
          ∃ plaintext, encryption.Decrypt P algo key input = some (.ok plaintext)
            ∧ plaintext.length
                = decoded.length - (if algo = encryption.DES then 8 else 16)) := by
  obtain ⟨block, hsel, hbs⟩ := selectCipher_of_valid P algo key hkey
  rw [← hbs]
  cases hdec : base64.DecodeString input with
  | none =>
    simp [encryption.Decrypt, hsel, hdec, encryption.isBase64]
  | some decoded =>
    by_cases hlen : decoded.length < block.BlockSize
    · simp [encryption.Decrypt, hsel, hdec, encryption.isBase64, hlen]
    · have htake : (decoded.take block.BlockSize).length = block.BlockSize := by
        simp only [List.length_take]; omega
      have hplain : (cipher.cfbDecryptLoop block (decoded.drop block.BlockSize).length
          (decoded.take block.BlockSize) (decoded.drop block.BlockSize)).length
            = decoded.length - block.BlockSize := by
        rw [cfbDecryptLoop_length block _ _ _ (le_refl _), List.length_drop]
      rw [List.length_drop] at hplain
      simp [encryption.Decrypt, hsel, hdec, encryption.isBase64, hlen, cipher.CFBDecrypt,
        htake, hplain]

/-- C15 (witness): DES with a key of eight bytes; the input decodes to nine bytes, so
`Decrypt` returns a plaintext of one byte. -/
theorem C15_decrypt_outcome_by_input_witness :
    ((encryption.DES = encryption.AES128 ∧ (bytesOfString "01234567").length = 16)
        ∨ (encryption.DES = encryption.AES192 ∧ (bytesOfString "01234567").length = 24)
        ∨ (encryption.DES = encryption.AES256 ∧ (bytesOfString "01234567").length = 32)
        ∨ (encryption.DES = encryption.DES ∧ (bytesOfString "01234567").length = 8))
      ∧ base64.DecodeString (bytesOfString "AAAAAAAAAAAA") = some (List.replicate 9 0)
      ∧ (if encryption.DES = encryption.DES then 8 else 16) ≤ (List.replicate 9 (0 : Byte)).length
      ∧ ∃ plaintext, encryption.Decrypt encryption.toyCiphers encryption.DES
            (bytesOfString "01234567") (bytesOfString "AAAAAAAAAAAA") = some (.ok plaintext)
          ∧ plaintext.length = (List.replicate 9 (0 : Byte)).length
              - (if encryption.DES = encryption.DES then 8 else 16) :=
  ⟨Or.inr (Or.inr (Or.inr ⟨rfl, by decide⟩)), by decide, by decide,
    (C15_decrypt_outcome_by_input encryption.toyCiphers encryption.DES
      (bytesOfString "01234567") (bytesOfString "AAAAAAAAAAAA")
      (Or.inr (Or.inr (Or.inr ⟨rfl, by decide⟩)))).2.2 (List.replicate 9 0) (by decide)
      (by decide)⟩


/-- C16 (counterexample): `maxSessionAge` is the largest `time.Duration`, the record was
created at instant 0 and the clock shows `2^63` nanoseconds.  `now.Sub(CreatedAt)` is cut
off at the largest `Duration`, which is not above `maxSessionAge`, so the sweep keeps
the record; `CreatedAt.Add(maxSessionAge)` is before `now`, so `GetSession` reports
`ErrSessionExpired`. -/
theorem C16_counterexample_largest_duration :
    sweepCondition maxDuration ⟨2 ^ 63⟩ (some ⟨"aes128", "k", ⟨0⟩⟩) = false
      ∧ ((⟨0⟩ : Time).Add maxDuration).Before ⟨2 ^ 63⟩ = true
      ∧ (New InMemory.asDB maxDuration).GetSession (fun _ => 0, ⟨0⟩) ⟨2 ^ 63⟩
            ⟨some (AList.insert "s1" (some ⟨"aes128", "k", ⟨0⟩⟩) ∅), maxDuration, true⟩ "s1"
          = some (⟨some (AList.insert "s1" (some ⟨"aes128", "k", ⟨0⟩⟩) ∅), maxDuration, true⟩,
              (none, some Error.ErrSessionExpired))
      ∧ ((⟨some (AList.insert "s1" (some ⟨"aes128", "k", ⟨0⟩⟩) ∅), maxDuration, true⟩ :
            InMemory).cleanUpExpiredSessions fun _ => ⟨2 ^ 63⟩).index "s1"
          = some (some ⟨"aes128", "k", ⟨0⟩⟩) := by
  refine ⟨by decide, by decide, rfl, by decide⟩

/-- C16 (amended): engine and `Store` share one `maxSessionAge`, a `time.Duration`, and
the identifier holds a record.  (1) The sweep's test implies `GetSession`'s test, so a
sweep at instant `now` never removes a session `GetSession` returns as valid at `now`.
(2) Unless `maxSessionAge` is the largest `Duration` and `now - CreatedAt` exceeds it,
`GetSession`'s test implies the sweep's test, so the two tests are equivalent and a
sweep at `now` removes every session `GetSession` reports as expired at `now`. -/
theorem C16_sweep_agrees_with_expiry (db : InMemory) (hdur : isDuration db.maxSessionAge)
    (id : String) (v : datastore.Session) (hstored : db.index id = some (some v))
    (now : Time) (env : (Nat → Nat) × Time) :
    (sweepCondition db.maxSessionAge now (some v) = true →
        (v.CreatedAt.Add db.maxSessionAge).Before now = true)
      ∧ (∀ view, (New InMemory.asDB db.maxSessionAge).GetSession env now db id
            = some (db, (some view, none)) →
          (db.cleanUpExpiredSessions fun _ => now).index id = some (some v))
      ∧ ((db.maxSessionAge < maxDuration ∨ now.nanos - v.CreatedAt.nanos ≤ maxDuration) →
          (sweepCondition db.maxSessionAge now (some v) = true ↔
              (v.CreatedAt.Add db.maxSessionAge).Before now = true)
            ∧ ((New InMemory.asDB db.maxSessionAge).GetSession env now db id
                = some (db, (none, some Error.ErrSessionExpired)) →
              (db.cleanUpExpiredSessions fun _ => now).index id = none)) := by
  have himp : sweepCondition db.maxSessionAge now (some v) = true →
      (v.CreatedAt.Add db.maxSessionAge).Before now = true := by
    intro h
    simp only [sweepCondition, decide_eq_true_eq] at h
    exact before_of_sub_gt hdur h
  refine ⟨himp, ?_, ?_⟩
  · intro view hget
    rw [getSession_of_index hstored] at hget
    by_cases hb : (v.CreatedAt.Add db.maxSessionAge).Before now = true
    · rw [if_pos hb] at hget
      simp at hget
    · have hc : ¬ sweepCondition db.maxSessionAge now (some v) = true := fun h => hb (himp h)
      simp only [cleanUpExpiredSessions_index, hstored, if_neg hc]
  · intro hcorner
    have hconv : (v.CreatedAt.Add db.maxSessionAge).Before now = true →
        sweepCondition db.maxSessionAge now (some v) = true := by
      intro h
      simp only [sweepCondition, decide_eq_true_eq]
      exact sub_gt_of_before hdur hcorner h
    refine ⟨⟨himp, hconv⟩, ?_⟩
    intro hget
    rw [getSession_of_index hstored] at hget
    by_cases hb : (v.CreatedAt.Add db.maxSessionAge).Before now = true
    · simp only [cleanUpExpiredSessions_index, hstored, if_pos (hconv hb)]
    · rw [if_neg hb] at hget
      simp at hget

/-- C16 (witness): `maxSessionAge = 10`, a record created at instant 5, the clock at 16:
both tests hold, `GetSession` reports expiry and the sweep removes the record. -/
theorem C16_sweep_agrees_with_expiry_witness :
    isDuration (10 : Int)
      ∧ (⟨some (AList.insert "s1" (some ⟨"aes128", "k", ⟨5⟩⟩) ∅), 10, true⟩ : InMemory).index
          "s1" = some (some ⟨"aes128", "k", ⟨5⟩⟩)
      ∧ ((10 : Duration) < maxDuration ∨ (⟨16⟩ : Time).nanos - (⟨5⟩ : Time).nanos ≤ maxDuration)
      ∧ (New InMemory.asDB 10).GetSession (fun _ => 0, ⟨0⟩) ⟨16⟩
            ⟨some (AList.insert "s1" (some ⟨"aes128", "k", ⟨5⟩⟩) ∅), 10, true⟩ "s1"
          = some (⟨some (AList.insert "s1" (some ⟨"aes128", "k", ⟨5⟩⟩) ∅), 10, true⟩,
              (none, some Error.ErrSessionExpired))
      ∧ ((⟨some (AList.insert "s1" (some ⟨"aes128", "k", ⟨5⟩⟩) ∅), 10, true⟩ :
            InMemory).cleanUpExpiredSessions fun _ => ⟨16⟩).index "s1" = none :=
  ⟨by decide, by decide, Or.inl (by decide), rfl,
    ((C16_sweep_agrees_with_expiry
      ⟨some (AList.insert "s1" (some ⟨"aes128", "k", ⟨5⟩⟩) ∅), 10, true⟩ (by decide) "s1"
      ⟨"aes128", "k", ⟨5⟩⟩ (by decide) ⟨16⟩ (fun _ => 0, ⟨0⟩)).2.2
        (Or.inl (by decide))).2 rfl⟩


/-- C17: for every case table of the standard library and every session request with a
body.  (1) `Bind` accepts the request (returns a nil error) exactly when the algorithm
name, lower-cased and with every `-` removed, is one of aes128, aes192, aes256, des and
the key has the number of bytes that algorithm requires (16, 24, 32, 8).  (2) For every
accepted request: the request is left holding that normalised name and the key;
`algorithmFromText` of the name is the algorithm of that name; `ValidateAlgoKeyPair`
holds for it and the key; neither `Encrypt` nor `Decrypt` for it fails with
`ErrCipherCreation`; and the same holds for the name and key of every view `GetSession`
returns for the session that `NewSession` creates from the request on an engine whose
map is allocated. -/
theorem C17_bind_accepts_iff_cipher_constructible (U : unicode.CaseTable)
    (s : api.Session) :
    ((∃ sr, api.SessionRequest.Bind U (some s) = some (sr, none)) ↔
        (api.normalisedName U s.AlgorithmName = "aes128"
            ∧ (bytesOfString s.Key).length = 16)
          ∨ (api.normalisedName U s.AlgorithmName = "aes192"
            ∧ (bytesOfString s.Key).length = 24)
          ∨ (api.normalisedName U s.AlgorithmName = "aes256"
            ∧ (bytesOfString s.Key).length = 32)
          ∨ (api.normalisedName U s.AlgorithmName = "des"
            ∧ (bytesOfString s.Key).length = 8))
      ∧ ∀ sr, api.SessionRequest.Bind U (some s) = some (sr, none) →
          sr = some ⟨api.normalisedName U s.AlgorithmName, s.Key⟩
            ∧ api.algorithmFromText (api.normalisedName U s.AlgorithmName)
                = api.normalisedName U s.AlgorithmName
            ∧ encryption.ValidateAlgoKeyPair
                (api.algorithmFromText (api.normalisedName U s.AlgorithmName))
                (bytesOfString s.Key) = true
            ∧ (∀ P entropy text,
                encryption.Encrypt P entropy
                    (api.algorithmFromText (api.normalisedName U s.AlgorithmName))
                    (bytesOfString s.Key) text
                  ≠ some (.error encryption.Error.ErrCipherCreation)
                ∧ encryption.Decrypt P
                    (api.algorithmFromText (api.normalisedName U s.AlgorithmName))
                    (bytesOfString s.Key) text
                  ≠ some (.error encryption.Error.ErrCipherCreation))
            ∧ ∀ (age : Duration) (db : InMemory) (rnd : Nat → Nat) (now : Time),
                db.data ≠ none →
                ∃ db', (New InMemory.asDB age).NewSession (rnd, now) db
                      (api.normalisedName U s.AlgorithmName) s.Key
                    = some (db', (uuid.NewString rnd, none))
                  ∧ ∀ env later view,
                      (New InMemory.asDB age).GetSession env later db' (uuid.NewString rnd)
                        = some (db', (some view, none)) →
                      ∀ P entropy text,
                        encryption.Encrypt P entropy
                            (api.algorithmFromText view.AlgorithmName)
                            (bytesOfString view.Key) text
                          ≠ some (.error encryption.Error.ErrCipherCreation)
                        ∧ encryption.Decrypt P (api.algorithmFromText view.AlgorithmName)
                            (bytesOfString view.Key) text
                          ≠ some (.error encryption.Error.ErrCipherCreation) := by
  have hfits := validateAlgoKeyPair_eq_true_iff (api.normalisedName U s.AlgorithmName)
    (bytesOfString s.Key)
  simp only [encryption.AES128, encryption.AES192, encryption.AES256, encryption.DES]
    at hfits
  have hsup_of_fits : encryption.ValidateAlgoKeyPair (api.normalisedName U s.AlgorithmName)
      (bytesOfString s.Key) = true →
      (api.normalisedName U s.AlgorithmName = "aes128"
        ∨ api.normalisedName U s.AlgorithmName = "aes192"
        ∨ api.normalisedName U s.AlgorithmName = "aes256"
        ∨ api.normalisedName U s.AlgorithmName = "des") := by
    intro h
    rcases hfits.mp h with h | h | h | h
    · exact Or.inl h.1
    · exact Or.inr (Or.inl h.1)
    · exact Or.inr (Or.inr (Or.inl h.1))
    · exact Or.inr (Or.inr (Or.inr h.1))
  -- `Bind` accepts exactly when the key fits the normalised name
  have haccept : ∀ sr, api.SessionRequest.Bind U (some s) = some (sr, none) →
      encryption.ValidateAlgoKeyPair (api.normalisedName U s.AlgorithmName)
          (bytesOfString s.Key) = true
        ∧ sr = some ⟨api.normalisedName U s.AlgorithmName, s.Key⟩ := by
    intro sr h
    rw [bind_eq] at h
    by_cases h1 : strings.TrimSpace s.AlgorithmName = ""
    · rw [if_pos h1] at h
      simp at h
    · rw [if_neg h1] at h
      by_cases h2 : ¬ (api.normalisedName U s.AlgorithmName = "aes128"
          ∨ api.normalisedName U s.AlgorithmName = "aes192"
          ∨ api.normalisedName U s.AlgorithmName = "aes256"
          ∨ api.normalisedName U s.AlgorithmName = "des")
      · rw [if_pos h2] at h
        simp at h
      · rw [if_neg h2] at h
        by_cases h3 : encryption.ValidateAlgoKeyPair (api.normalisedName U s.AlgorithmName)
            (bytesOfString s.Key) = false
        · rw [if_pos h3] at h
          simp at h
        · rw [if_neg h3] at h
          simp only [Option.some.injEq, Prod.mk.injEq, and_true] at h
          exact ⟨by simpa using h3, h.symm⟩
  have hconv : encryption.ValidateAlgoKeyPair (api.normalisedName U s.AlgorithmName)
      (bytesOfString s.Key) = true →
      api.SessionRequest.Bind U (some s)
        = some (some ⟨api.normalisedName U s.AlgorithmName, s.Key⟩, none) := by
    intro hv
    have hs := hsup_of_fits hv
    have ht : ¬ strings.TrimSpace s.AlgorithmName = "" := fun ht =>
      not_all_space_of_supported hs
        (all_space_normalised U (all_space_of_trimSpace_eq_empty ht))
    rw [bind_eq, if_neg ht, if_neg (not_not.mpr hs), if_neg (by simp [hv])]
  refine ⟨⟨fun ⟨sr, h⟩ => hfits.mp (haccept sr h).1, fun h => ⟨_, hconv (hfits.mpr h)⟩⟩, ?_⟩
  intro sr h
  obtain ⟨hv, hsr⟩ := haccept sr h
  have hs := hsup_of_fits hv
  have haft := algorithmFromText_of_supported hs
  have hkey := (validateAlgoKeyPair_eq_true_iff (api.normalisedName U s.AlgorithmName)
    (bytesOfString s.Key)).mp hv
  refine ⟨hsr, haft, by rw [haft]; exact hv, ?_, ?_⟩
  · intro P entropy text
    rw [haft]
    exact no_cipherCreation_error P entropy _ _ text hkey
  · intro age db rnd now hlive
    obtain ⟨m, hm⟩ := Option.ne_none_iff_exists'.mp hlive
    refine ⟨_, newSession_eq hm age rnd now _ _, ?_⟩
    intro env later view hget P entropy text
    have hidx : InMemory.index { db with
          data := some (m.insert (uuid.NewString rnd)
            (some { AlgorithmName := api.normalisedName U s.AlgorithmName, Key := s.Key,
                    CreatedAt := now })) }
        (uuid.NewString rnd)
          = some (some ⟨api.normalisedName U s.AlgorithmName, s.Key, now⟩) := by
      simp only [index_after_write, if_pos]
    rw [getSession_of_index hidx] at hget
    split_ifs at hget
    · simp at hget
    · simp only [Option.some.injEq, Prod.mk.injEq, and_true, true_and] at hget
      subst hget
      simp only [haft]
      exact no_cipherCreation_error P entropy _ _ text hkey

/-- C17 (witness): the request `AES-128` with a key of sixteen bytes is accepted and
stored as `aes128`. -/
theorem C17_bind_accepts_iff_cipher_constructible_witness :
    api.SessionRequest.Bind unicode.asciiCaseTable (some ⟨"AES-128", "0123456789abcdef"⟩)
        = some (some ⟨"aes128", "0123456789abcdef"⟩, none)
      ∧ (some ⟨"aes128", "0123456789abcdef"⟩ : api.SessionRequest)
          = some ⟨api.normalisedName unicode.asciiCaseTable "AES-128", "0123456789abcdef"⟩
      ∧ encryption.ValidateAlgoKeyPair
          (api.algorithmFromText (api.normalisedName unicode.asciiCaseTable "AES-128"))
          (bytesOfString "0123456789abcdef") = true :=
  ⟨by decide,
    ((C17_bind_accepts_iff_cipher_constructible unicode.asciiCaseTable
        ⟨"AES-128", "0123456789abcdef"⟩).2 (some ⟨"aes128", "0123456789abcdef"⟩)
          (by decide)).1,
    ((C17_bind_accepts_iff_cipher_constructible unicode.asciiCaseTable
        ⟨"AES-128", "0123456789abcdef"⟩).2 (some ⟨"aes128", "0123456789abcdef"⟩)
          (by decide)).2.2.1⟩

end Claims

end Techtest
